import Mathlib

/-!
# Verification of the NST UBI token pallet

A shallow embedding of the state-transition core of the `pallet-ubi-token`
FRAME pallet (`pallets/ubi-token/src/lib.rs`): batched balances with
expiration, UBI claims, burn-only spending, the reputation kernel and the
admission predicate for unsigned extrinsics.

Machine integers (`u128`, `u64`, `u32`) are modelled as `Nat` together with
explicit saturating operations clamped at the corresponding maximum, matching
the pallet's pervasive use of `saturating_add` / `saturating_sub` /
`saturating_mul` (note that on `Nat`, truncated subtraction already *is*
saturating subtraction).  Storage maps are modelled as association lists
(balances, unique-recipient pairs) or functions with the FRAME `ValueQuery`
default (reputation, last-claim).
-/

namespace UbiToken

/-- Largest `u128` value (`2^128 - 1`); saturating u128 arithmetic clamps here. -/
def U128MAX : Nat := 340282366920938463463374607431768211455

/-- Largest `u64` value (`2^64 - 1`; block numbers are at most 64-bit). -/
def U64MAX : Nat := 18446744073709551615

/-- Largest `u32` value (`2^32 - 1`). -/
def U32MAX : Nat := 4294967295

/-- `u128::saturating_add`. -/
def satAdd128 (a b : Nat) : Nat := min (a + b) U128MAX

/-- `u128::saturating_mul`. -/
def satMul128 (a b : Nat) : Nat := min (a * b) U128MAX

/-- `u64::saturating_add` (used for block numbers and `u64` counters). -/
def satAdd64 (a b : Nat) : Nat := min (a + b) U64MAX

/-- `u32::saturating_add`. -/
def satAdd32 (a b : Nat) : Nat := min (a + b) U32MAX

/-- `MAX_BATCHES`: maximum number of token batches per account. -/
def MAX_BATCHES : Nat := 10

/-- `MAX_UNIQUE_RECIPIENTS`: declared in the source (and never read again). -/
def MAX_UNIQUE_RECIPIENTS : Nat := 1000

/-- `MIN_SENDER_WEIGHT` (0.5x in fixed point /1000). -/
def MIN_SENDER_WEIGHT : Nat := 500

/-- `MAX_SENDER_WEIGHT` (2.0x in fixed point /1000). -/
def MAX_SENDER_WEIGHT : Nat := 2000

/-- `DECAY_FACTOR`: 95% = 950/1000. -/
def DECAY_FACTOR : Nat := 950

/-- `POINTS_PER_UNIQUE_RECIPIENT`. -/
def POINTS_PER_UNIQUE_RECIPIENT : Nat := 50

/-- `POINTS_PER_STREAK_DAY`. -/
def POINTS_PER_STREAK_DAY : Nat := 10

/-- `MAX_STREAK_BONUS`. -/
def MAX_STREAK_BONUS : Nat := 500

/-- `WEIGHTED_RECEIVED_MULTIPLIER`. -/
def WEIGHTED_RECEIVED_MULTIPLIER : Nat := 2

/-- `STREAK_GRACE_PERIODS`. -/
def STREAK_GRACE_PERIODS : Nat := 2

/-- Account identifiers are opaque, equality-comparable ids. -/
abbrev AccountId : Type := Nat

/-- `TokenBatch<BlockNumber>`: an amount together with its expiration block. -/
structure TokenBatch where
  amount : Nat
  expires_at : Nat
deriving DecidableEq, Repr

/-- `Reputation<BlockNumber>`: the per-account reputation record. -/
structure Reputation where
  burns_sent_count : Nat
  burns_sent_volume : Nat
  burns_received_count : Nat
  burns_received_volume : Nat
  first_activity : Nat
  weighted_received : Nat
  unique_recipients_count : Nat
  claim_streak : Nat
  last_claim_period : Nat
  score : Nat
deriving DecidableEq, Repr

/-- `Default` for `Reputation`: all fields zero (FRAME `ValueQuery`). -/
def Reputation.default : Reputation := ⟨0, 0, 0, 0, 0, 0, 0, 0, 0, 0⟩

/-- The pallet `Config` constants. -/
structure Config where
  ubiAmount : Nat
  claimPeriodBlocks : Nat
  expirationBlocks : Nat
  maxBacklogPeriods : Nat
deriving DecidableEq, Repr

/-- Events deposited by the pallet. -/
inductive Event
  | Claimed (who : AccountId) (amount periods expires_at : Nat)
  | Burned (fr toA : AccountId) (amount : Nat)
  | Expired (who : AccountId) (amount : Nat)
deriving DecidableEq, Repr

/-- The pallet's `Error<T>` variants. -/
inductive PalletError
  | NothingToClaim
  | InsufficientBalance
  | CannotBurnToSelf
  | AmountMustBePositive
  | TooManyBatches
  | Overflow
deriving DecidableEq, Repr

/-- The pallet's dispatchable calls. -/
inductive Call
  | claim (account : AccountId)
  | burn (fr toA : AccountId) (amount : Nat)
deriving DecidableEq, Repr

/-- Lookup in the `Balances` storage map (`ValueQuery`: default is `[]`). -/
def getBal : List (AccountId × List TokenBatch) → AccountId → List TokenBatch
  | [], _ => []
  | (k, v) :: t, a => if k = a then v else getBal t a

/-- Write to the `Balances` storage map (replace the entry, or insert one). -/
def setBal : List (AccountId × List TokenBatch) → AccountId → List TokenBatch →
    List (AccountId × List TokenBatch)
  | [], a, v => [(a, v)]
  | (k, w) :: t, a, v => if k = a then (a, v) :: t else (k, w) :: setBal t a v

/-- Membership test in the `UniqueRecipients` double map. -/
def getUR (l : List (AccountId × AccountId)) (x y : AccountId) : Bool :=
  l.any (fun p => decide (p.1 = x ∧ p.2 = y))

/-- The pallet's storage: `Balances`, `LastClaim`, `ReputationStore`,
`UniqueRecipients` and `TotalSupply`. -/
structure State where
  balances : List (AccountId × List TokenBatch)
  lastClaim : AccountId → Option Nat
  reputation : AccountId → Reputation
  uniqueRecipients : List (AccountId × AccountId)
  totalSupply : Nat

/-- The empty (genesis) store. -/
def genesis : State :=
  { balances := []
    lastClaim := fun _ => none
    reputation := fun _ => Reputation.default
    uniqueRecipients := []
    totalSupply := 0 }

/-- `calculate_claimable_periods`: `1` when the account never claimed,
otherwise `(current_block - last_claim) / claim_period`, where the
`try_into::<u32>().unwrap_or(u32::MAX)` conversion clamps at `u32::MAX`. -/
def calculate_claimable_periods (cfg : Config) (s : State) (who : AccountId)
    (current_block : Nat) : Nat :=
  match s.lastClaim who with
  | none => 1
  | some last_claim_block =>
      min ((current_block - last_claim_block) / cfg.claimPeriodBlocks) U32MAX

/-- The batches kept by `cleanup_expired_batches`: those with
`expires_at > current_block` (the loop removes every `expires_at ≤ now`). -/
def cleanupLedger (l : List TokenBatch) (current_block : Nat) : List TokenBatch :=
  l.filter (fun b => decide (¬ b.expires_at ≤ current_block))

/-- The amount accumulated by `cleanup_expired_batches` over the removed
batches, with `u128::saturating_add`. -/
def expiredAmount (l : List TokenBatch) (current_block : Nat) : Nat :=
  ((l.filter (fun b => decide (b.expires_at ≤ current_block))).map
    (fun b => b.amount)).foldl satAdd128 0

/-- `cleanup_expired_batches`: drop expired batches from the account's ledger,
decrement `TotalSupply` by the (saturating) sum removed, and return it. -/
def cleanup (s : State) (who : AccountId) (current_block : Nat) : State × Nat :=
  let l := getBal s.balances who
  let e := expiredAmount l current_block
  ({ s with
      balances := setBal s.balances who (cleanupLedger l current_block)
      totalSupply := if 0 < e then s.totalSupply - e else s.totalSupply }, e)

/-- The traversal of `burn_fifo`'s `for` loop: skip expired batches, subtract
from the first live batches until `remaining` hits zero (then `break`),
zeroing batches that are fully consumed.  Returns the updated batch list and
the remaining (unburned) amount. -/
def fifoConsume (current_block : Nat) : List TokenBatch → Nat →
    List TokenBatch × Nat
  | [], r => ([], r)
  | b :: t, r =>
    if b.expires_at ≤ current_block then
      let p := fifoConsume current_block t r
      (b :: p.1, p.2)
    else if r ≤ b.amount then
      ({ b with amount := b.amount - r } :: t, 0)
    else
      let p := fifoConsume current_block t (r - b.amount)
      ({ b with amount := 0 } :: p.1, p.2)

/-- `burn_fifo`: sort the ledger by `expires_at` (a stable sort, like Rust's
`sort_by`), consume FIFO, drop emptied batches, and fail with
`InsufficientBalance` (rolling the ledger back, as `try_mutate` does) when
the live balance cannot cover the requested amount. -/
def burn_fifo (s : State) (who : AccountId) (amount current_block : Nat) :
    Except PalletError State :=
  let sorted := List.insertionSort (fun a b => a.expires_at ≤ b.expires_at)
    (getBal s.balances who)
  let p := fifoConsume current_block sorted amount
  if p.2 = 0 then
    .ok { s with
      balances := setBal s.balances who (p.1.filter (fun b => decide (0 < b.amount))) }
  else
    .error .InsufficientBalance

/-- `spendable_balance`: saturating sum of the live batches. -/
def spendable_balance (s : State) (who : AccountId) (current_block : Nat) : Nat :=
  (((getBal s.balances who).filter (fun b => decide (current_block < b.expires_at))).map
    (fun b => b.amount)).foldl satAdd128 0

/-- `total_balance`: saturating sum of every stored batch. -/
def total_balance (s : State) (who : AccountId) : Nat :=
  ((getBal s.balances who).map (fun b => b.amount)).foldl satAdd128 0

/-- `calculate_sender_weight`: the five-tier fixed-point weight table. -/
def calculate_sender_weight (sender_score : Nat) : Nat :=
  if sender_score < 10 then MIN_SENDER_WEIGHT
  else if sender_score < 100 then 750
  else if sender_score < 1000 then 1000
  else if sender_score < 10000 then 1500
  else MAX_SENDER_WEIGHT

/-- `block_to_period`: `block / claim_period` after the `try_into::<u64>()`
conversions (`unwrap_or(0)` for the block, `unwrap_or(1)` for the period). -/
def block_to_period (cfg : Config) (block : Nat) : Nat :=
  (if block ≤ U64MAX then block else 0) /
    (if cfg.claimPeriodBlocks ≤ U64MAX then cfg.claimPeriodBlocks else 1)

/-- `update_streak`: increment the streak when at most
`STREAK_GRACE_PERIODS + 1` periods passed since the last claim period,
otherwise reset it to 1; then record the current period. -/
def update_streak (rep : Reputation) (current_period : Nat) : Reputation :=
  let periods_missed := current_period - rep.last_claim_period
  let rep' :=
    if periods_missed ≤ STREAK_GRACE_PERIODS + 1 then
      { rep with claim_streak := satAdd32 rep.claim_streak 1 }
    else
      { rep with claim_streak := 1 }
  { rep' with last_claim_period := current_period }

/-- `apply_decay`: `score * 950 / 1000`. -/
def apply_decay (score : Nat) : Nat := satMul128 score DECAY_FACTOR / 1000

/-- `calculate_streak_bonus`: `min(streak * 10, 500)`. -/
def calculate_streak_bonus (streak : Nat) : Nat :=
  min (satMul128 streak POINTS_PER_STREAK_DAY) MAX_STREAK_BONUS

/-- `recalculate_score`: the component formula
`unique*50 + sent_volume + weighted_received*2 + streak_bonus`
(all saturating). -/
def recalculate_score (rep : Reputation) : Nat :=
  let unique_bonus := satMul128 rep.unique_recipients_count POINTS_PER_UNIQUE_RECIPIENT
  let sent_bonus := rep.burns_sent_volume
  let received_bonus := satMul128 rep.weighted_received WEIGHTED_RECEIVED_MULTIPLIER
  let streak_bonus := calculate_streak_bonus rep.claim_streak
  satAdd128 (satAdd128 (satAdd128 unique_bonus sent_bonus) received_bonus) streak_bonus

/-- The `ReputationStore::mutate` closure of `claim`: set `first_activity`
on first use, apply decay to the cached score, update the streak, then
overwrite the score with the recomputed value. -/
def claimRepUpdate (current_block current_period : Nat) (rep : Reputation) :
    Reputation :=
  let rep1 := if rep.first_activity = 0 then
      { rep with first_activity := current_block } else rep
  let rep2 := { rep1 with score := apply_decay rep1.score }
  let rep3 := update_streak rep2 current_period
  { rep3 with score := recalculate_score rep3 }

/-- The same closure with the `score = apply_decay(score)` line removed; used
to state that the decay write is inert (spec §9, "Decay observation"). -/
def claimRepUpdateNoDecay (current_block current_period : Nat) (rep : Reputation) :
    Reputation :=
  let rep1 := if rep.first_activity = 0 then
      { rep with first_activity := current_block } else rep
  let rep3 := update_streak rep1 current_period
  { rep3 with score := recalculate_score rep3 }

/-- The `Balances::try_mutate` body of `claim`: merge the minted amount into
the first batch sharing the expiration, else push a new batch, failing with
`TooManyBatches` at the `BoundedVec` capacity `MAX_BATCHES`. -/
def tryAddBatch (amount expires : Nat) : List TokenBatch →
    Except PalletError (List TokenBatch)
  | led =>
    if led.any (fun b => decide (b.expires_at = expires)) then
      .ok (mergeFirst led expires amount)
    else if led.length < MAX_BATCHES then
      .ok (led ++ [⟨amount, expires⟩])
    else
      .error .TooManyBatches
where
  /-- `iter_mut().any(..)` adds to the *first* batch with this expiration. -/
  mergeFirst : List TokenBatch → Nat → Nat → List TokenBatch
    | [], _, _ => []
    | b :: t, e, amt =>
      if b.expires_at = e then { b with amount := satAdd128 b.amount amt } :: t
      else b :: mergeFirst t e amt

/-- The `claim` dispatchable (after `ensure_none`): returns the handler's
store updates together with the deposited events, or the dispatch error. -/
def claim (cfg : Config) (s : State) (who : AccountId) (current_block : Nat) :
    Except PalletError (State × List Event) :=
  let claimable := calculate_claimable_periods cfg s who current_block
  if claimable = 0 then .error .NothingToClaim
  else
    let periods := min claimable cfg.maxBacklogPeriods
    let amount := satMul128 cfg.ubiAmount periods
    let pcl := cleanup s who current_block
    let s1 := pcl.1
    let ev1 := if 0 < pcl.2 then [Event.Expired who pcl.2] else []
    let expires := satAdd64 current_block cfg.expirationBlocks
    match tryAddBatch amount expires (getBal s1.balances who) with
    | .error e => .error e
    | .ok newLed =>
      -- LastClaim insert, TotalSupply update and reputation mutate act on
      -- disjoint storage items, so they are gathered into one record update.
      .ok ({ s1 with
            balances := setBal s1.balances who newLed
            lastClaim := fun x => if x = who then some current_block else s1.lastClaim x
            totalSupply := satAdd128 s1.totalSupply amount
            reputation := fun x =>
              if x = who then
                claimRepUpdate current_block (block_to_period cfg current_block)
                  (s1.reputation x)
              else s1.reputation x },
          ev1 ++ [Event.Claimed who amount periods expires])

/-- The `claim` handler with the inert `score = apply_decay(score)` write
removed (the spec's "decay removed" variant); otherwise identical to
`claim`. -/
def claimNoDecay (cfg : Config) (s : State) (who : AccountId) (current_block : Nat) :
    Except PalletError (State × List Event) :=
  let claimable := calculate_claimable_periods cfg s who current_block
  if claimable = 0 then .error .NothingToClaim
  else
    let periods := min claimable cfg.maxBacklogPeriods
    let amount := satMul128 cfg.ubiAmount periods
    let pcl := cleanup s who current_block
    let s1 := pcl.1
    let ev1 := if 0 < pcl.2 then [Event.Expired who pcl.2] else []
    let expires := satAdd64 current_block cfg.expirationBlocks
    match tryAddBatch amount expires (getBal s1.balances who) with
    | .error e => .error e
    | .ok newLed =>
      .ok ({ s1 with
            balances := setBal s1.balances who newLed
            lastClaim := fun x => if x = who then some current_block else s1.lastClaim x
            totalSupply := satAdd128 s1.totalSupply amount
            reputation := fun x =>
              if x = who then
                claimRepUpdateNoDecay current_block (block_to_period cfg current_block)
                  (s1.reputation x)
              else s1.reputation x },
          ev1 ++ [Event.Claimed who amount periods expires])

/-- The sender-side `ReputationStore::mutate` closure of `burn`. -/
def burnRepFrom (current_block amount : Nat) (is_new_recipient : Bool)
    (rep : Reputation) : Reputation :=
  let rep1 := { rep with
    burns_sent_count := satAdd64 rep.burns_sent_count 1
    burns_sent_volume := satAdd128 rep.burns_sent_volume amount }
  let rep2 := if is_new_recipient then
      { rep1 with unique_recipients_count := satAdd32 rep1.unique_recipients_count 1 }
    else rep1
  let rep3 := if rep2.first_activity = 0 then
      { rep2 with first_activity := current_block } else rep2
  { rep3 with score := recalculate_score rep3 }

/-- The recipient-side `ReputationStore::mutate` closure of `burn`. -/
def burnRepTo (current_block amount weighted_amount : Nat) (rep : Reputation) :
    Reputation :=
  let rep1 := { rep with
    burns_received_count := satAdd64 rep.burns_received_count 1
    burns_received_volume := satAdd128 rep.burns_received_volume amount
    weighted_received := satAdd128 rep.weighted_received weighted_amount }
  let rep2 := if rep1.first_activity = 0 then
      { rep1 with first_activity := current_block } else rep1
  { rep2 with score := recalculate_score rep2 }

/-- The `burn` dispatchable (after `ensure_none`). -/
def burn (cfg : Config) (s : State) (fr toA : AccountId) (amount current_block : Nat) :
    Except PalletError (State × List Event) :=
  if fr = toA then .error .CannotBurnToSelf
  else if amount = 0 then .error .AmountMustBePositive
  else
    let pcl := cleanup s fr current_block
    let s1 := pcl.1
    let ev1 := if 0 < pcl.2 then [Event.Expired fr pcl.2] else []
    match burn_fifo s1 fr amount current_block with
    | .error e => .error e
    | .ok s2 =>
      let s3 := { s2 with totalSupply := s2.totalSupply - amount }
      let sender_score := (s3.reputation fr).score
      let weighted_amount := satMul128 amount (calculate_sender_weight sender_score) / 1000
      let is_new_recipient := ! getUR s3.uniqueRecipients fr toA
      let s4 := if is_new_recipient then
          { s3 with uniqueRecipients := (fr, toA) :: s3.uniqueRecipients }
        else s3
      let s5 := { s4 with reputation := fun x =>
        if x = fr then burnRepFrom current_block amount is_new_recipient (s4.reputation x)
        else s4.reputation x }
      let s6 := { s5 with reputation := fun x =>
        if x = toA then burnRepTo current_block amount weighted_amount (s5.reputation x)
        else s5.reputation x }
      .ok (s6, ev1 ++ [Event.Burned fr toA amount])

/-- The per-call handler (height and message fully determine the update). -/
def handler (cfg : Config) (current_block : Nat) (s : State) :
    Call → Except PalletError (State × List Event)
  | .claim account => claim cfg s account current_block
  | .burn fr toA amount => burn cfg s fr toA amount current_block

/-- Modelled from the spec: FRAME dispatches each extrinsic inside a
transactional storage layer (the pallet's callers live outside this
repository's `src/`), so a handler error rolls back every storage write and
every deposited event of that handler; only a successful handler commits. -/
def dispatch (cfg : Config) (current_block : Nat) (s : State) (c : Call) :
    State × List Event :=
  match handler cfg current_block s c with
  | .ok r => r
  | .error _ => (s, [])

/-- The payload of an accepted unsigned transaction: tag prefix, the
`provides` tuple components, and the longevity. -/
structure ValidTx where
  tag : String
  providesAcct : AccountId
  providesBlock : Nat
  longevity : Nat
deriving DecidableEq, Repr

/-- Outcome of `validate_unsigned`. -/
inductive ValidationResult
  | invalid (code : Nat)
  | valid (tx : ValidTx)
deriving DecidableEq, Repr

/-- `validate_unsigned`: the admission predicate for unsigned `claim` and
`burn` submissions.  It only reads the store. -/
def validate_unsigned (cfg : Config) (s : State) (current_block : Nat) :
    Call → ValidationResult
  | .claim account =>
    let claimable := calculate_claimable_periods cfg s account current_block
    if claimable = 0 then .invalid 1
    else .valid ⟨"UbiClaim", account, current_block / cfg.claimPeriodBlocks, 5⟩
  | .burn fr toA amount =>
    if fr = toA then .invalid 2
    else if amount = 0 then .invalid 3
    else if spendable_balance s fr current_block < amount then .invalid 4
    else .valid ⟨"UbiBurn", fr, current_block, 5⟩

/-- Mathematical (non-saturating) sum of the amounts in a batch list. -/
def batchSumN (l : List TokenBatch) : Nat := (l.map (fun b => b.amount)).sum

/-- Mathematical sum of `amount` over all accounts and batches of the ledger. -/
def ledgerSum (bs : List (AccountId × List TokenBatch)) : Nat :=
  (bs.map (fun p => batchSumN p.2)).sum

/-- Reachability of a store at a host height: genesis at any height, then
committed operations at non-decreasing heights (block numbers are `u64` at
most). -/
inductive Reach (cfg : Config) : State → Nat → Prop
  | init (h0 : Nat) : h0 ≤ U64MAX → Reach cfg genesis h0
  | step (s : State) (h : Nat) (c : Call) (h' : Nat) :
      Reach cfg s h → h ≤ h' → h' ≤ U64MAX →
      Reach cfg (dispatch cfg h' s c).1 h'

/-- Reachability along traces where no `u128` saturation is ever hit: each
committed step keeps the total ledger content below `2^128`.  This is the
regime every realistic configuration stays in. -/
inductive ReachS (cfg : Config) : State → Nat → Prop
  | init (h0 : Nat) : h0 ≤ U64MAX → ReachS cfg genesis h0
  | step (s : State) (h : Nat) (c : Call) (h' : Nat) :
      ReachS cfg s h → h ≤ h' → h' ≤ U64MAX →
      ledgerSum (dispatch cfg h' s c).1.balances ≤ U128MAX →
      ReachS cfg (dispatch cfg h' s c).1 h'

/-- Run a list of calls at one height, keeping only committed stores. -/
def runCalls (cfg : Config) (current_block : Nat) (s : State) :
    List Call → State
  | [] => s
  | c :: cs => runCalls cfg current_block (dispatch cfg current_block s c).1 cs


/-! ## Auxiliary definitions used by the claims -/

/-- The account whose ledger a call touches: the claimer, or the burn sender. -/
def Call.touched : Call → AccountId
  | .claim account => account
  | .burn fr _ _ => fr

/-- The test-harness configuration of `mock.rs`:
`UbiAmount = 100`, `ClaimPeriodBlocks = 100`, `ExpirationBlocks = 700`,
`MaxBacklogPeriods = 3`. -/
def mockConfig : Config := ⟨100, 100, 700, 3⟩

/-- An adversarial (but type-correct) configuration whose `UbiAmount` is
`2^127`: two first claims already saturate the `u128` total supply. -/
def cfgBig : Config := ⟨170141183460469231731687303715884105728, 10, 70, 3⟩

/-- Whether a handler committed (`Ok`) rather than erroring. -/
def isOkB : Except PalletError (State × List Event) → Bool
  | .ok _ => true
  | .error _ => false

/-- A legal configuration whose expiration window (1050 blocks) spans more
than `MAX_BATCHES` claim periods (100 blocks each), so a ledger can fill up. -/
def cfg4 : Config := ⟨100, 100, 1050, 3⟩

/-- Ten claims at heights 1, 101, ..., 901 under `cfg4`: every minted batch
is still live at height 1001, so the ledger holds `MAX_BATCHES` batches. -/
def c4pre : State :=
  [1, 101, 201, 301, 401, 501, 601, 701, 801, 901].foldl
    (fun st h => (dispatch cfg4 h st (.claim 7)).1) genesis

/-- Strictly ascending expirations: the well-ordering `burn_fifo` relies on. -/
def sortedLed (l : List TokenBatch) : Prop :=
  List.Pairwise (fun a b => a.expires_at < b.expires_at) l

/-- Number of recorded `(a, r)` pairs in `UniqueRecipients` for sender `a`
(inserts are guarded by a membership test, so this is the number of distinct
recipients `a` has burned to). -/
def urCard (s : State) (a : AccountId) : Nat :=
  (s.uniqueRecipients.filter (fun p => decide (p.1 = a))).length

/-- A configuration whose expiration window (1,000,000 blocks) keeps the one
claimed batch alive through 1001 burns at height 1. -/
def cfg7 : Config := ⟨2000, 10, 1000000, 3⟩

/-- The trace for the C7 counterexample: account 0 claims 2000 tokens at
height 1, then burns 1 token to each of the distinct recipients 1, …, n. -/
def sC7 : Nat → State
  | 0 => (dispatch cfg7 1 genesis (.claim 0)).1
  | n + 1 => (dispatch cfg7 1 (sC7 n) (.burn 0 (n + 1) 1)).1

/-! ## Storage-map and arithmetic helper lemmas -/

theorem getBal_setBal_same (bs : List (AccountId × List TokenBatch)) (a : AccountId)
    (v : List TokenBatch) : getBal (setBal bs a v) a = v := by
  induction bs with
  | nil => simp [getBal, setBal]
  | cons p t ih =>
    obtain ⟨k, w⟩ := p
    by_cases h : k = a <;> simp [getBal, setBal, h, ih]

theorem getBal_setBal_ne (bs : List (AccountId × List TokenBatch)) (a b : AccountId)
    (v : List TokenBatch) (h : b ≠ a) : getBal (setBal bs a v) b = getBal bs b := by
  induction bs with
  | nil => simp [getBal, setBal, Ne.symm h]
  | cons p t ih =>
    obtain ⟨k, w⟩ := p
    by_cases hk : k = a
    · subst hk
      simp [getBal, setBal, Ne.symm h]
    · simp [getBal, setBal, hk, ih]

theorem ledgerSum_cons (k : AccountId) (w : List TokenBatch)
    (t : List (AccountId × List TokenBatch)) :
    ledgerSum ((k, w) :: t) = batchSumN w + ledgerSum t := by
  simp [ledgerSum]

theorem ledgerSum_setBal (bs : List (AccountId × List TokenBatch)) (a : AccountId)
    (v : List TokenBatch) :
    ledgerSum (setBal bs a v) + batchSumN (getBal bs a) = ledgerSum bs + batchSumN v := by
  induction bs with
  | nil => simp [ledgerSum, setBal, getBal, batchSumN]
  | cons p t ih =>
    obtain ⟨k, w⟩ := p
    by_cases h : k = a
    · subst h
      simp [setBal, getBal, ledgerSum_cons]
      omega
    · simp [setBal, getBal, h, ledgerSum_cons]
      omega

theorem foldl_satAdd128 (l : List Nat) (a : Nat) (ha : a ≤ U128MAX) :
    l.foldl satAdd128 a = min (a + l.sum) U128MAX := by
  induction l generalizing a with
  | nil => simp [Nat.min_eq_left ha]
  | cons x t ih =>
    simp only [List.foldl_cons, List.sum_cons]
    rw [ih (satAdd128 a x) (by simp [satAdd128])]
    simp only [satAdd128]
    omega

theorem foldl_satAdd128_zero (l : List Nat) :
    l.foldl satAdd128 0 = min l.sum U128MAX := by
  simpa using foldl_satAdd128 l 0 (by simp [U128MAX])

theorem batchSumN_nil : batchSumN [] = 0 := rfl

theorem batchSumN_cons (b : TokenBatch) (t : List TokenBatch) :
    batchSumN (b :: t) = b.amount + batchSumN t := by
  simp [batchSumN]

theorem batchSumN_cleanup_split (l : List TokenBatch) (H : Nat) :
    batchSumN (cleanupLedger l H) +
      batchSumN (l.filter (fun b => decide (b.expires_at ≤ H))) = batchSumN l := by
  induction l with
  | nil => simp [cleanupLedger, batchSumN]
  | cons b t ih =>
    by_cases h : b.expires_at ≤ H
    · have h1 : cleanupLedger (b :: t) H = cleanupLedger t H := by
        simp [cleanupLedger, List.filter_cons, h]
      have h2 : (b :: t).filter (fun x => decide (x.expires_at ≤ H)) =
          b :: t.filter (fun x => decide (x.expires_at ≤ H)) := by
        simp [List.filter_cons, h]
      rw [h1, h2, batchSumN_cons, batchSumN_cons]
      omega
    · have h1 : cleanupLedger (b :: t) H = b :: cleanupLedger t H := by
        simp [cleanupLedger, List.filter_cons, h]
      have h2 : (b :: t).filter (fun x => decide (x.expires_at ≤ H)) =
          t.filter (fun x => decide (x.expires_at ≤ H)) := by
        simp [List.filter_cons, h]
      rw [h1, h2, batchSumN_cons, batchSumN_cons]
      omega

theorem expiredAmount_eq (l : List TokenBatch) (H : Nat) :
    expiredAmount l H =
      min (batchSumN (l.filter (fun b => decide (b.expires_at ≤ H)))) U128MAX := by
  simp [expiredAmount, batchSumN, foldl_satAdd128_zero]

theorem cleanup_lastClaim (s : State) (who : AccountId) (H : Nat) :
    (cleanup s who H).1.lastClaim = s.lastClaim := rfl

theorem cleanup_reputation (s : State) (who : AccountId) (H : Nat) :
    (cleanup s who H).1.reputation = s.reputation := rfl

theorem cleanup_uniqueRecipients (s : State) (who : AccountId) (H : Nat) :
    (cleanup s who H).1.uniqueRecipients = s.uniqueRecipients := rfl

theorem cleanup_snd (s : State) (who : AccountId) (H : Nat) :
    (cleanup s who H).2 = expiredAmount (getBal s.balances who) H := rfl

theorem cleanup_balances (s : State) (who : AccountId) (H : Nat) :
    (cleanup s who H).1.balances =
      setBal s.balances who (cleanupLedger (getBal s.balances who) H) := rfl

theorem cleanup_supply (s : State) (who : AccountId) (H : Nat) :
    (cleanup s who H).1.totalSupply =
      s.totalSupply - expiredAmount (getBal s.balances who) H := by
  show (if 0 < expiredAmount (getBal s.balances who) H then
    s.totalSupply - expiredAmount (getBal s.balances who) H else s.totalSupply) = _
  split <;> omega


/-! ## FIFO-consumption and batch-merge lemmas -/

theorem fifoConsume_cons_expired {b : TokenBatch} {H : Nat} (t : List TokenBatch)
    (r : Nat) (h : b.expires_at ≤ H) :
    fifoConsume H (b :: t) r =
      (b :: (fifoConsume H t r).1, (fifoConsume H t r).2) := by
  simp [fifoConsume, h]

theorem fifoConsume_cons_take {b : TokenBatch} {H r : Nat} (t : List TokenBatch)
    (h : ¬ b.expires_at ≤ H) (h2 : r ≤ b.amount) :
    fifoConsume H (b :: t) r = ({ b with amount := b.amount - r } :: t, 0) := by
  simp [fifoConsume, h, h2]

theorem fifoConsume_cons_zero {b : TokenBatch} {H r : Nat} (t : List TokenBatch)
    (h : ¬ b.expires_at ≤ H) (h2 : ¬ r ≤ b.amount) :
    fifoConsume H (b :: t) r =
      ({ b with amount := 0 } :: (fifoConsume H t (r - b.amount)).1,
        (fifoConsume H t (r - b.amount)).2) := by
  simp [fifoConsume, h, h2]

theorem fifoConsume_remaining_le (H : Nat) (l : List TokenBatch) (r : Nat) :
    (fifoConsume H l r).2 ≤ r := by
  induction l generalizing r with
  | nil => simp [fifoConsume]
  | cons b t ih =>
    by_cases h : b.expires_at ≤ H
    · rw [fifoConsume_cons_expired t r h]
      exact ih r
    · by_cases h2 : r ≤ b.amount
      · rw [fifoConsume_cons_take t h h2]
        simp
      · rw [fifoConsume_cons_zero t h h2]
        exact (ih (r - b.amount)).trans (by omega)

theorem fifoConsume_sum (H : Nat) (l : List TokenBatch) (r : Nat) :
    batchSumN (fifoConsume H l r).1 + (r - (fifoConsume H l r).2) = batchSumN l := by
  induction l generalizing r with
  | nil => simp [fifoConsume]
  | cons b t ih =>
    by_cases h : b.expires_at ≤ H
    · rw [fifoConsume_cons_expired t r h, batchSumN_cons, batchSumN_cons]
      have := ih r
      omega
    · by_cases h2 : r ≤ b.amount
      · rw [fifoConsume_cons_take t h h2, batchSumN_cons, batchSumN_cons]
        show b.amount - r + batchSumN t + (r - 0) = b.amount + batchSumN t
        omega
      · rw [fifoConsume_cons_zero t h h2, batchSumN_cons, batchSumN_cons]
        have h3 := ih (r - b.amount)
        have h4 := fifoConsume_remaining_le H t (r - b.amount)
        show 0 + batchSumN (fifoConsume H t (r - b.amount)).1 +
          (r - (fifoConsume H t (r - b.amount)).2) = b.amount + batchSumN t
        omega

theorem fifoConsume_expires_map (H : Nat) (l : List TokenBatch) (r : Nat) :
    (fifoConsume H l r).1.map (fun b => b.expires_at) =
      l.map (fun b => b.expires_at) := by
  induction l generalizing r with
  | nil => simp [fifoConsume]
  | cons b t ih =>
    by_cases h : b.expires_at ≤ H
    · rw [fifoConsume_cons_expired t r h]
      simp [ih r]
    · by_cases h2 : r ≤ b.amount
      · rw [fifoConsume_cons_take t h h2]
        simp
      · rw [fifoConsume_cons_zero t h h2]
        simp [ih (r - b.amount)]

theorem batchSumN_filter_pos (l : List TokenBatch) :
    batchSumN (l.filter (fun b => decide (0 < b.amount))) = batchSumN l := by
  induction l with
  | nil => rfl
  | cons b t ih =>
    by_cases h : 0 < b.amount
    · have h1 : (b :: t).filter (fun x => decide (0 < x.amount)) =
          b :: t.filter (fun x => decide (0 < x.amount)) := by
        simp [List.filter_cons, h]
      rw [h1, batchSumN_cons, batchSumN_cons, ih]
    · have h1 : (b :: t).filter (fun x => decide (0 < x.amount)) =
          t.filter (fun x => decide (0 < x.amount)) := by
        simp [List.filter_cons, h]
      rw [h1, batchSumN_cons, ih]
      omega

theorem batchSumN_perm {l1 l2 : List TokenBatch} (h : l1.Perm l2) :
    batchSumN l1 = batchSumN l2 := by
  simpa only [batchSumN] using List.Perm.sum_eq (h.map (fun b => b.amount))

theorem batchSumN_insertionSort (cmp : TokenBatch → TokenBatch → Prop)
    [DecidableRel cmp] (l : List TokenBatch) :
    batchSumN (List.insertionSort cmp l) = batchSumN l :=
  batchSumN_perm (List.perm_insertionSort cmp l)

theorem mergeFirst_expires_map (l : List TokenBatch) (e amt : Nat) :
    (tryAddBatch.mergeFirst l e amt).map (fun b => b.expires_at) =
      l.map (fun b => b.expires_at) := by
  induction l with
  | nil => rfl
  | cons b t ih =>
    by_cases h : b.expires_at = e <;>
      simp [tryAddBatch.mergeFirst, h, ih]

theorem mergeFirst_sum (l : List TokenBatch) (e amt : Nat)
    (hmem : l.any (fun b => decide (b.expires_at = e)) = true) :
    ∃ a0, a0 ≤ batchSumN l ∧
      batchSumN (tryAddBatch.mergeFirst l e amt) + a0 =
        batchSumN l + satAdd128 a0 amt := by
  induction l with
  | nil => simp at hmem
  | cons b t ih =>
    by_cases h : b.expires_at = e
    · refine ⟨b.amount, by rw [batchSumN_cons]; omega, ?_⟩
      have h1 : tryAddBatch.mergeFirst (b :: t) e amt =
          { b with amount := satAdd128 b.amount amt } :: t := by
        simp [tryAddBatch.mergeFirst, h]
      rw [h1, batchSumN_cons, batchSumN_cons]
      show satAdd128 b.amount amt + batchSumN t + b.amount = _
      omega
    · have hmem2 : t.any (fun b => decide (b.expires_at = e)) = true := by
        simpa [h] using hmem
      obtain ⟨a0, ha0, heq⟩ := ih hmem2
      refine ⟨a0, by rw [batchSumN_cons]; omega, ?_⟩
      have h1 : tryAddBatch.mergeFirst (b :: t) e amt =
          b :: tryAddBatch.mergeFirst t e amt := by
        simp [tryAddBatch.mergeFirst, h]
      rw [h1, batchSumN_cons, batchSumN_cons]
      omega

theorem mergeFirst_filter_sum (l : List TokenBatch) (e amt : Nat)
    (hcap : batchSumN l + amt ≤ U128MAX)
    (hmem : l.any (fun b => decide (b.expires_at = e)) = true) :
    batchSumN ((tryAddBatch.mergeFirst l e amt).filter
      (fun b => decide (b.expires_at = e))) =
      batchSumN (l.filter (fun b => decide (b.expires_at = e))) + amt := by
  induction l with
  | nil => simp at hmem
  | cons b t ih =>
    rw [batchSumN_cons] at hcap
    by_cases h : b.expires_at = e
    · have h1 : tryAddBatch.mergeFirst (b :: t) e amt =
          { b with amount := satAdd128 b.amount amt } :: t := by
        simp [tryAddBatch.mergeFirst, h]
      have h2 : ({ b with amount := satAdd128 b.amount amt } :: t).filter
          (fun x => decide (x.expires_at = e)) =
          { b with amount := satAdd128 b.amount amt } ::
            t.filter (fun x => decide (x.expires_at = e)) := by
        simp [List.filter_cons, h]
      have h3 : (b :: t).filter (fun x => decide (x.expires_at = e)) =
          b :: t.filter (fun x => decide (x.expires_at = e)) := by
        simp [List.filter_cons, h]
      rw [h1, h2, h3, batchSumN_cons, batchSumN_cons]
      have hx : satAdd128 b.amount amt = b.amount + amt := by
        simp only [satAdd128]
        omega
      dsimp only
      omega
    · have hmem2 : t.any (fun b => decide (b.expires_at = e)) = true := by
        simpa [h] using hmem
      have h1 : tryAddBatch.mergeFirst (b :: t) e amt =
          b :: tryAddBatch.mergeFirst t e amt := by
        simp [tryAddBatch.mergeFirst, h]
      have h2 : (b :: tryAddBatch.mergeFirst t e amt).filter
          (fun x => decide (x.expires_at = e)) =
          (tryAddBatch.mergeFirst t e amt).filter
            (fun x => decide (x.expires_at = e)) := by
        simp [List.filter_cons, h]
      have h3 : (b :: t).filter (fun x => decide (x.expires_at = e)) =
          t.filter (fun x => decide (x.expires_at = e)) := by
        simp [List.filter_cons, h]
      rw [h1, h2, h3]
      exact ih (by omega) hmem2


/-! ## Destructors for successful handlers -/

theorem batchSumN_getBal_le (bs : List (AccountId × List TokenBatch)) (a : AccountId) :
    batchSumN (getBal bs a) ≤ ledgerSum bs := by
  induction bs with
  | nil => simp [getBal, ledgerSum, batchSumN]
  | cons p t ih =>
    obtain ⟨k, w⟩ := p
    by_cases h : k = a <;> simp [getBal, h, ledgerSum_cons] <;> omega

theorem expiredAmount_exact (l : List TokenBatch) (H : Nat)
    (hcap : batchSumN l ≤ U128MAX) :
    expiredAmount l H = batchSumN (l.filter (fun b => decide (b.expires_at ≤ H))) := by
  rw [expiredAmount_eq]
  have := batchSumN_cleanup_split l H
  omega

theorem cleanup_sum (s : State) (who : AccountId) (H : Nat)
    (hInv : s.totalSupply = ledgerSum s.balances)
    (hcap : ledgerSum s.balances ≤ U128MAX) :
    (cleanup s who H).1.totalSupply = ledgerSum (cleanup s who H).1.balances ∧
    ledgerSum (cleanup s who H).1.balances ≤ ledgerSum s.balances := by
  have hble := batchSumN_getBal_le s.balances who
  have hsplit := batchSumN_cleanup_split (getBal s.balances who) H
  have hexp : expiredAmount (getBal s.balances who) H =
      batchSumN ((getBal s.balances who).filter (fun b => decide (b.expires_at ≤ H))) :=
    expiredAmount_exact _ _ (hble.trans hcap)
  have hset := ledgerSum_setBal s.balances who
    (cleanupLedger (getBal s.balances who) H)
  rw [cleanup_supply, cleanup_balances, hexp]
  constructor
  · omega
  · omega

theorem burn_fifo_ok_destruct (s : State) (who : AccountId) (amount H : Nat)
    (s2 : State) (hok : burn_fifo s who amount H = .ok s2) :
    (fifoConsume H (List.insertionSort (fun a b => a.expires_at ≤ b.expires_at)
        (getBal s.balances who)) amount).2 = 0 ∧
    s2 = { s with balances := (setBal s.balances who
      ((fifoConsume H (List.insertionSort (fun a b => a.expires_at ≤ b.expires_at)
          (getBal s.balances who)) amount).1.filter
        (fun b => decide (0 < b.amount)))) } := by
  unfold burn_fifo at hok
  simp only [] at hok
  split at hok
  · refine ⟨by assumption, ?_⟩
    injection hok with h
    exact h.symm
  · exact absurd hok (by simp)

theorem burn_fifo_ok_sum (s : State) (who : AccountId) (amount H : Nat)
    (s2 : State) (hok : burn_fifo s who amount H = .ok s2) :
    ledgerSum s2.balances + amount = ledgerSum s.balances ∧
    amount ≤ batchSumN (getBal s.balances who) ∧
    s2.totalSupply = s.totalSupply ∧
    s2.lastClaim = s.lastClaim ∧
    s2.reputation = s.reputation ∧
    s2.uniqueRecipients = s.uniqueRecipients := by
  obtain ⟨hrem, hs2⟩ := burn_fifo_ok_destruct s who amount H s2 hok
  subst hs2
  dsimp only
  have hsort : batchSumN (List.insertionSort (fun a b => a.expires_at ≤ b.expires_at)
      (getBal s.balances who)) = batchSumN (getBal s.balances who) :=
    batchSumN_insertionSort _ _
  have hcons := fifoConsume_sum H (List.insertionSort
    (fun a b => a.expires_at ≤ b.expires_at) (getBal s.balances who)) amount
  rw [hrem] at hcons
  have hfil := batchSumN_filter_pos (fifoConsume H (List.insertionSort
    (fun a b => a.expires_at ≤ b.expires_at) (getBal s.balances who)) amount).1
  have hset := ledgerSum_setBal s.balances who
    ((fifoConsume H (List.insertionSort (fun a b => a.expires_at ≤ b.expires_at)
      (getBal s.balances who)) amount).1.filter (fun b => decide (0 < b.amount)))
  refine ⟨by omega, by omega, rfl, rfl, rfl, rfl⟩

theorem claim_ok_destruct (cfg : Config) (s : State) (who : AccountId) (H : Nat)
    (s' : State) (ev : List Event) (hok : claim cfg s who H = .ok (s', ev)) :
    ∃ newLed,
      tryAddBatch
          (satMul128 cfg.ubiAmount
            (min (calculate_claimable_periods cfg s who H) cfg.maxBacklogPeriods))
          (satAdd64 H cfg.expirationBlocks)
          (getBal (cleanup s who H).1.balances who) = .ok newLed ∧
      calculate_claimable_periods cfg s who H ≠ 0 ∧
      s'.balances = setBal (cleanup s who H).1.balances who newLed ∧
      s'.lastClaim = (fun x => if x = who then some H else s.lastClaim x) ∧
      s'.totalSupply = satAdd128 (cleanup s who H).1.totalSupply
        (satMul128 cfg.ubiAmount
          (min (calculate_claimable_periods cfg s who H) cfg.maxBacklogPeriods)) ∧
      s'.reputation = (fun x => if x = who then
          claimRepUpdate H (block_to_period cfg H) (s.reputation x)
        else s.reputation x) ∧
      s'.uniqueRecipients = s.uniqueRecipients ∧
      ev = (if 0 < (cleanup s who H).2 then [Event.Expired who (cleanup s who H).2]
          else []) ++
        [Event.Claimed who
          (satMul128 cfg.ubiAmount
            (min (calculate_claimable_periods cfg s who H) cfg.maxBacklogPeriods))
          (min (calculate_claimable_periods cfg s who H) cfg.maxBacklogPeriods)
          (satAdd64 H cfg.expirationBlocks)] := by
  unfold claim at hok
  simp only [] at hok
  split at hok
  · exact absurd hok (by simp)
  · rename_i hcln
    split at hok
    · exact absurd hok (by simp)
    · rename_i newLed hadd
      refine ⟨newLed, hadd, hcln, ?_⟩
      simp only [Except.ok.injEq, Prod.mk.injEq] at hok
      obtain ⟨hs', hev⟩ := hok
      subst hs'
      exact ⟨rfl, rfl, rfl, rfl, rfl, hev.symm⟩

theorem burn_ok_destruct (cfg : Config) (s : State) (fr toA : AccountId)
    (amount H : Nat) (s' : State) (ev : List Event)
    (hok : burn cfg s fr toA amount H = .ok (s', ev)) :
    ∃ s2, burn_fifo (cleanup s fr H).1 fr amount H = .ok s2 ∧
      fr ≠ toA ∧ amount ≠ 0 ∧
      s'.balances = s2.balances ∧
      s'.totalSupply = s2.totalSupply - amount ∧
      s'.lastClaim = s.lastClaim ∧
      s'.uniqueRecipients =
        (if getUR s.uniqueRecipients fr toA = false then
          (fr, toA) :: s.uniqueRecipients else s.uniqueRecipients) ∧
      s'.reputation fr =
        burnRepFrom H amount (! getUR s.uniqueRecipients fr toA)
          (s.reputation fr) ∧
      s'.reputation toA =
        burnRepTo H amount
          (satMul128 amount
            (calculate_sender_weight (s.reputation fr).score) / 1000)
          (s.reputation toA) ∧
      (∀ x, x ≠ fr → x ≠ toA → s'.reputation x = s.reputation x) ∧
      ev = (if 0 < (cleanup s fr H).2 then [Event.Expired fr (cleanup s fr H).2]
          else []) ++ [Event.Burned fr toA amount] := by
  unfold burn at hok
  simp only [] at hok
  split at hok
  · exact absurd hok (by simp)
  · split at hok
    · exact absurd hok (by simp)
    · rename_i hne hamt
      split at hok
      · exact absurd hok (by simp)
      · rename_i s2 hfifo
        simp only [Except.ok.injEq, Prod.mk.injEq] at hok
        obtain ⟨hs', hev⟩ := hok
        subst hs'
        obtain ⟨hrem, hs2⟩ := burn_fifo_ok_destruct _ _ _ _ _ hfifo
        have hrep2 : s2.reputation = s.reputation := by rw [hs2]; rfl
        have hur2 : s2.uniqueRecipients = s.uniqueRecipients := by rw [hs2]; rfl
        have hlc2 : s2.lastClaim = s.lastClaim := by rw [hs2]; rfl
        refine ⟨s2, hfifo, hne, hamt, ?_, ?_, ?_, ?_, ?_, ?_, ?_, hev.symm⟩
        · cases hg : getUR s2.uniqueRecipients fr toA <;> simp [hg]
        · cases hg : getUR s2.uniqueRecipients fr toA <;> simp [hg]
        · cases hg : getUR s2.uniqueRecipients fr toA <;> simp [hg, hlc2]
        · cases hg : getUR s2.uniqueRecipients fr toA
          · have hg2 : getUR s.uniqueRecipients fr toA = false := by
              rw [← hur2]; exact hg
            simp [hg, hg2, hur2]
          · have hg2 : getUR s.uniqueRecipients fr toA = true := by
              rw [← hur2]; exact hg
            simp [hg, hg2, hur2]
        · cases hg : getUR s2.uniqueRecipients fr toA
          · have hg2 : getUR s.uniqueRecipients fr toA = false := by
              rw [← hur2]; exact hg
            simp [hg2, hrep2, hne]
          · have hg2 : getUR s.uniqueRecipients fr toA = true := by
              rw [← hur2]; exact hg
            simp [hg2, hrep2, hne]
        · have hne2 : ¬ toA = fr := fun hc => hne hc.symm
          cases hg : getUR s2.uniqueRecipients fr toA <;>
            simp [hrep2, hne2]
        · intro x hxf hxt
          cases hg : getUR s2.uniqueRecipients fr toA <;>
            simp [hrep2, hxf, hxt]


/-! ## Supply-conservation of committed steps -/

theorem batchSumN_append (l1 l2 : List TokenBatch) :
    batchSumN (l1 ++ l2) = batchSumN l1 + batchSumN l2 := by
  simp [batchSumN]

theorem claim_step_sum (cfg : Config) (s : State) (who : AccountId) (H : Nat)
    (s' : State) (ev : List Event) (hok : claim cfg s who H = .ok (s', ev))
    (hInv : s.totalSupply = ledgerSum s.balances)
    (hcap : ledgerSum s.balances ≤ U128MAX)
    (hcap2 : ledgerSum s'.balances ≤ U128MAX) :
    s'.totalSupply = ledgerSum s'.balances := by
  obtain ⟨newLed, hadd, _, hbal, _, hsup, _, _, _⟩ :=
    claim_ok_destruct cfg s who H s' ev hok
  obtain ⟨hc1, hc2⟩ := cleanup_sum s who H hInv hcap
  have hble := batchSumN_getBal_le (cleanup s who H).1.balances who
  have hset : ledgerSum s'.balances +
      batchSumN (getBal (cleanup s who H).1.balances who) =
      ledgerSum (cleanup s who H).1.balances + batchSumN newLed := by
    rw [hbal]
    exact ledgerSum_setBal _ _ _
  unfold tryAddBatch at hadd
  simp only [] at hadd
  split at hadd
  · rename_i hmem
    injection hadd with hadd
    obtain ⟨a0, ha0, heq⟩ := mergeFirst_sum
      (getBal (cleanup s who H).1.balances who) (satAdd64 H cfg.expirationBlocks)
      (satMul128 cfg.ubiAmount
        (min (calculate_claimable_periods cfg s who H) cfg.maxBacklogPeriods)) hmem
    rw [hadd] at heq
    rw [hsup, hc1]
    simp only [satAdd128] at heq ⊢
    omega
  · split at hadd
    · injection hadd with hadd
      have hsum : batchSumN newLed =
          batchSumN (getBal (cleanup s who H).1.balances who) +
            satMul128 cfg.ubiAmount
              (min (calculate_claimable_periods cfg s who H) cfg.maxBacklogPeriods) := by
        rw [← hadd, batchSumN_append, batchSumN_cons, batchSumN_nil]
        dsimp only
        omega
      rw [hsup, hc1]
      simp only [satAdd128]
      omega
    · exact absurd hadd (by simp)

theorem burn_step_sum (cfg : Config) (s : State) (fr toA : AccountId)
    (amount H : Nat) (s' : State) (ev : List Event)
    (hok : burn cfg s fr toA amount H = .ok (s', ev))
    (hInv : s.totalSupply = ledgerSum s.balances)
    (hcap : ledgerSum s.balances ≤ U128MAX) :
    s'.totalSupply = ledgerSum s'.balances := by
  obtain ⟨s2, hfifo, _, _, hbal, hsup, _, _, _, _, _, _⟩ :=
    burn_ok_destruct cfg s fr toA amount H s' ev hok
  obtain ⟨hc1, hc2⟩ := cleanup_sum s fr H hInv hcap
  obtain ⟨hls, hamt, hsup2, _, _, _⟩ := burn_fifo_ok_sum _ _ _ _ _ hfifo
  have hble := batchSumN_getBal_le (cleanup s fr H).1.balances fr
  rw [hsup, hbal, hsup2, hc1]
  omega

theorem dispatch_preserves_sum (cfg : Config) (h : Nat) (s : State) (c : Call)
    (hInv : s.totalSupply = ledgerSum s.balances)
    (hcap : ledgerSum s.balances ≤ U128MAX)
    (hcap2 : ledgerSum (dispatch cfg h s c).1.balances ≤ U128MAX) :
    (dispatch cfg h s c).1.totalSupply = ledgerSum (dispatch cfg h s c).1.balances := by
  cases c with
  | claim a =>
    cases hres : claim cfg s a h with
    | ok r =>
      have hd : dispatch cfg h s (.claim a) = r := by
        simp [dispatch, handler, hres]
      rw [hd] at hcap2 ⊢
      exact claim_step_sum cfg s a h r.1 r.2 (by rw [hres]) hInv hcap hcap2
    | error e =>
      have hd : dispatch cfg h s (.claim a) = (s, []) := by
        simp [dispatch, handler, hres]
      rw [hd]
      exact hInv
  | burn fr toA amount =>
    cases hres : burn cfg s fr toA amount h with
    | ok r =>
      have hd : dispatch cfg h s (.burn fr toA amount) = r := by
        simp [dispatch, handler, hres]
      rw [hd]
      exact burn_step_sum cfg s fr toA amount h r.1 r.2 (by rw [hres]) hInv hcap
    | error e =>
      have hd : dispatch cfg h s (.burn fr toA amount) = (s, []) := by
        simp [dispatch, handler, hres]
      rw [hd]
      exact hInv

theorem reachS_inv (cfg : Config) (s : State) (h : Nat) (hr : ReachS cfg s h) :
    s.totalSupply = ledgerSum s.balances ∧ ledgerSum s.balances ≤ U128MAX := by
  induction hr with
  | init h0 _ => simp [genesis, ledgerSum, U128MAX]
  | step s h c h' hr hle hle2 hcap ih =>
    exact ⟨dispatch_preserves_sum cfg h' s c ih.1 ih.2 hcap, hcap⟩

/-! ## The touched account holds no expired batch after a committed handler -/


theorem mem_cleanupLedger_live {b : TokenBatch} {l : List TokenBatch} {H : Nat}
    (hb : b ∈ cleanupLedger l H) : H < b.expires_at := by
  have := List.of_mem_filter hb
  simp at this
  omega

theorem expires_mem_of_map_eq {l1 l2 : List TokenBatch}
    (hmap : l1.map (fun b => b.expires_at) = l2.map (fun b => b.expires_at))
    {b : TokenBatch} (hb : b ∈ l1) :
    ∃ b2 ∈ l2, b.expires_at = b2.expires_at := by
  have h1 : b.expires_at ∈ l2.map (fun b => b.expires_at) := by
    rw [← hmap]
    exact List.mem_map_of_mem _ hb
  obtain ⟨b2, hb2, heq⟩ := List.mem_map.mp h1
  exact ⟨b2, hb2, heq.symm⟩

theorem claim_ok_live (cfg : Config) (s : State) (who : AccountId) (H : Nat)
    (s' : State) (ev : List Event) (hok : claim cfg s who H = .ok (s', ev))
    (hE : 1 ≤ cfg.expirationBlocks) (hH : H < U64MAX) :
    ∀ b ∈ getBal s'.balances who, H < b.expires_at := by
  obtain ⟨newLed, hadd, _, hbal, _, _, _, _, _⟩ :=
    claim_ok_destruct cfg s who H s' ev hok
  have hled : getBal (cleanup s who H).1.balances who =
      cleanupLedger (getBal s.balances who) H := by
    rw [cleanup_balances]
    exact getBal_setBal_same _ _ _
  intro b hb
  rw [hbal, getBal_setBal_same] at hb
  unfold tryAddBatch at hadd
  simp only [] at hadd
  split at hadd
  · injection hadd with hadd
    rw [← hadd] at hb
    obtain ⟨b2, hb2, heq⟩ := expires_mem_of_map_eq (mergeFirst_expires_map _ _ _) hb
    rw [hled] at hb2
    rw [heq]
    exact mem_cleanupLedger_live hb2
  · split at hadd
    · injection hadd with hadd
      rw [← hadd] at hb
      rcases List.mem_append.mp hb with hb1 | hb1
      · rw [hled] at hb1
        exact mem_cleanupLedger_live hb1
      · have hbeq : b = ⟨satMul128 cfg.ubiAmount
            (min (calculate_claimable_periods cfg s who H) cfg.maxBacklogPeriods),
            satAdd64 H cfg.expirationBlocks⟩ := by simpa using hb1
        rw [hbeq]
        show H < satAdd64 H cfg.expirationBlocks
        simp only [satAdd64]
        omega
    · exact absurd hadd (by simp)

theorem burn_ok_live (cfg : Config) (s : State) (fr toA : AccountId)
    (amount H : Nat) (s' : State) (ev : List Event)
    (hok : burn cfg s fr toA amount H = .ok (s', ev)) :
    ∀ b ∈ getBal s'.balances fr, H < b.expires_at := by
  obtain ⟨s2, hfifo, _, _, hbal, _, _, _, _, _, _, _⟩ :=
    burn_ok_destruct cfg s fr toA amount H s' ev hok
  obtain ⟨hrem, hs2⟩ := burn_fifo_ok_destruct _ _ _ _ _ hfifo
  have hled : getBal (cleanup s fr H).1.balances fr =
      cleanupLedger (getBal s.balances fr) H := by
    rw [cleanup_balances]
    exact getBal_setBal_same _ _ _
  intro b hb
  rw [hbal, hs2] at hb
  dsimp only at hb
  rw [getBal_setBal_same] at hb
  have hb1 : b ∈ (fifoConsume H (List.insertionSort
      (fun a b => a.expires_at ≤ b.expires_at)
      (getBal (cleanup s fr H).1.balances fr)) amount).1 :=
    List.mem_of_mem_filter hb
  obtain ⟨b2, hb2, heq⟩ := expires_mem_of_map_eq (fifoConsume_expires_map _ _ _) hb1
  have hb3 : b2 ∈ getBal (cleanup s fr H).1.balances fr :=
    (List.perm_insertionSort _ _).mem_iff.mp hb2
  rw [hled] at hb3
  rw [heq]
  exact mem_cleanupLedger_live hb3


/-! ## Claim C1 and C2 -/




/-- C1 (counterexample): with `UbiAmount = 2^127`, after two committed claims
at height 1 the stored `TotalSupply` (saturated at `u128::MAX` by
`saturating_add`) differs from the sum of `amount` over all stored batches
(`2^128`), refuting the claimed equality on a reachable state reached by a
committed operation. -/
theorem C1_counterexample :
    Reach cfgBig
      ((dispatch cfgBig 1 ((dispatch cfgBig 1 genesis (.claim 0)).1) (.claim 1)).1) 1 ∧
    isOkB (handler cfgBig 1 ((dispatch cfgBig 1 genesis (.claim 0)).1) (.claim 1)) = true ∧
    ¬ ((dispatch cfgBig 1 ((dispatch cfgBig 1 genesis (.claim 0)).1) (.claim 1)).1.totalSupply =
        ledgerSum
          (dispatch cfgBig 1 ((dispatch cfgBig 1 genesis (.claim 0)).1)
            (.claim 1)).1.balances) := by
  refine ⟨?_, by decide, by decide⟩
  exact Reach.step ((dispatch cfgBig 1 genesis (.claim 0)).1) 1 (.claim 1) 1
    (Reach.step genesis 1 (.claim 0) 1 (Reach.init 1 (by decide)) le_rfl (by decide))
    le_rfl (by decide)

/-- C1 (amended): on every trace in which the committed ledger content never
reaches `2^128` (so no `u128` saturation is hit — true of any realistic
configuration), after every committed operation `TotalSupply` equals the sum
of `amount` over all accounts and all stored batches; moreover, when the
handler succeeded, provided `ExpirationBlocks ≥ 1` and the height is below
`u64::MAX`, the account touched by the operation holds no expired batch
(other accounts may still hold not-yet-reaped expired batches, which the sum
counts). -/
theorem C1_supply_invariant (cfg : Config) (s : State) (h : Nat) (c : Call)
    (h2 : Nat) (hr : ReachS cfg s h) (hle : h ≤ h2) (hle2 : h2 ≤ U64MAX)
    (hcap : ledgerSum (dispatch cfg h2 s c).1.balances ≤ U128MAX)
    (hE : 1 ≤ cfg.expirationBlocks) (hH : h2 < U64MAX) :
    (dispatch cfg h2 s c).1.totalSupply =
      ledgerSum (dispatch cfg h2 s c).1.balances ∧
    (∀ s' ev, handler cfg h2 s c = .ok (s', ev) →
      ∀ b ∈ getBal s'.balances c.touched, h2 < b.expires_at) := by
  constructor
  · exact (reachS_inv cfg _ h2 (ReachS.step s h c h2 hr hle hle2 hcap)).1
  · intro s' ev hok
    cases c with
    | claim a => exact claim_ok_live cfg s a h2 s' ev hok hE hH
    | burn fr toA amount => exact burn_ok_live cfg s fr toA amount h2 s' ev hok

/-- C1 (witness): the amended invariant instantiated on the mock
configuration for a first claim at height 1 from genesis. -/
theorem C1_supply_invariant_witness :
    (dispatch mockConfig 1 genesis (.claim 0)).1.totalSupply =
      ledgerSum (dispatch mockConfig 1 genesis (.claim 0)).1.balances ∧
    (∀ s' ev, handler mockConfig 1 genesis (.claim 0) = .ok (s', ev) →
      ∀ b ∈ getBal s'.balances (Call.touched (.claim 0)), 1 < b.expires_at) :=
  C1_supply_invariant mockConfig genesis 1 (.claim 0) 1
    (ReachS.init 1 (by decide)) le_rfl (by decide) (by decide) (by decide)
    (by decide)

/-- C2: atomicity of the handlers.  If a handler (claim or burn) returns an
error — `NothingToClaim`, `TooManyBatches` after the expiration sweep,
`CannotBurnToSelf`, `AmountMustBePositive`, or `InsufficientBalance` after
the sweep — the committed store is the unchanged pre-state (`TotalSupply`,
batch ledger, `LastClaim` and reputation included) and no event is emitted,
the sweep's `Expired` event included.  The transactional rollback of FRAME
dispatch is modelled from the spec (§5 Atomicity), as the executive that
provides it lives outside this repository. -/
theorem C2_atomic_rollback (cfg : Config) (h : Nat) (s : State) (c : Call)
    (e : PalletError) (he : handler cfg h s c = .error e) :
    dispatch cfg h s c = (s, []) := by
  simp [dispatch, he]

/-- C2 (witness): a self-burn fails with `CannotBurnToSelf` and commits
nothing. -/
theorem C2_atomic_rollback_witness :
    dispatch mockConfig 5 genesis (.burn 1 1 3) = (genesis, []) :=
  C2_atomic_rollback mockConfig 5 genesis (.burn 1 1 3) .CannotBurnToSelf rfl


/-! ## Claim C3 -/

theorem spendable_eq (s : State) (a : AccountId) (H : Nat) :
    spendable_balance s a H =
      min (batchSumN ((getBal s.balances a).filter
        (fun b => decide (H < b.expires_at)))) U128MAX := by
  simp [spendable_balance, batchSumN, foldl_satAdd128_zero]

theorem filter_live_of_all {l : List TokenBatch} {H : Nat}
    (hl : ∀ b ∈ l, H < b.expires_at) :
    l.filter (fun b => decide (H < b.expires_at)) = l := by
  induction l with
  | nil => rfl
  | cons b t ih =>
    have hb := hl b (by simp)
    have h1 : (b :: t).filter (fun x => decide (H < x.expires_at)) =
        b :: t.filter (fun x => decide (H < x.expires_at)) := by
      simp [List.filter_cons, hb]
    rw [h1, ih (fun x hx => hl x (by simp [hx]))]

theorem cleanupLedger_of_live {l : List TokenBatch} {H : Nat}
    (hl : ∀ b ∈ l, H < b.expires_at) : cleanupLedger l H = l := by
  induction l with
  | nil => rfl
  | cons b t ih =>
    have hb := hl b (by simp)
    have h1 : cleanupLedger (b :: t) H = b :: cleanupLedger t H := by
      simp [cleanupLedger, List.filter_cons]
      omega
    rw [h1, ih (fun x hx => hl x (by simp [hx]))]

theorem expired_filter_nil {l : List TokenBatch} {H : Nat}
    (hl : ∀ b ∈ l, H < b.expires_at) :
    l.filter (fun b => decide (b.expires_at ≤ H)) = [] := by
  induction l with
  | nil => rfl
  | cons b t ih =>
    have hb := hl b (by simp)
    have h1 : (b :: t).filter (fun x => decide (x.expires_at ≤ H)) =
        t.filter (fun x => decide (x.expires_at ≤ H)) := by
      simp [List.filter_cons]
      omega
    rw [h1]
    exact ih (fun x hx => hl x (by simp [hx]))

theorem expiredAmount_of_live {l : List TokenBatch} {H : Nat}
    (hl : ∀ b ∈ l, H < b.expires_at) : expiredAmount l H = 0 := by
  unfold expiredAmount
  rw [expired_filter_nil hl]
  rfl

/-- C3 (counterexample): a reachable pre-state where the burn's sender still
holds a not-yet-reaped expired batch.  The successful `Burn(7, 8, 50)` at
height 750 decreases `TotalSupply` from 200 to 50 — by 150, not by the burnt
amount 50 — because the handler first reaps the expired 100-token batch and
decrements `TotalSupply` for it as well. -/
theorem C3_counterexample :
    Reach mockConfig
      ((dispatch mockConfig 101 ((dispatch mockConfig 1 genesis (.claim 7)).1)
        (.claim 7)).1) 101 ∧
    isOkB (handler mockConfig 750
      ((dispatch mockConfig 101 ((dispatch mockConfig 1 genesis (.claim 7)).1)
        (.claim 7)).1) (.burn 7 8 50)) = true ∧
    ((dispatch mockConfig 101 ((dispatch mockConfig 1 genesis (.claim 7)).1)
        (.claim 7)).1).totalSupply = 200 ∧
    (dispatch mockConfig 750
      ((dispatch mockConfig 101 ((dispatch mockConfig 1 genesis (.claim 7)).1)
        (.claim 7)).1) (.burn 7 8 50)).1.totalSupply = 50 := by
  refine ⟨?_, by decide, by decide, by decide⟩
  exact Reach.step ((dispatch mockConfig 1 genesis (.claim 7)).1) 1 (.claim 7) 101
    (Reach.step genesis 1 (.claim 7) 1 (Reach.init 1 (by decide)) le_rfl (by decide))
    (by omega) (by decide)

/-- C3 (amended): a successful `Burn(a, b, x)` decreases `spendable_balance(a)`
by exactly `x`, leaves `spendable_balance(b)` unchanged, and decreases
`TotalSupply` by exactly `x`, *provided* the sender's ledger holds no expired
batch at the burn height (otherwise the supply additionally drops by the
reaped amount), `TotalSupply ≥ x`, and the sender's ledger content is below
the `u128` saturation bound. -/
theorem C3_burn_conservation (cfg : Config) (s : State) (fr toA : AccountId)
    (amount H : Nat) (s' : State) (ev : List Event)
    (hok : burn cfg s fr toA amount H = .ok (s', ev))
    (hlive : ∀ b ∈ getBal s.balances fr, H < b.expires_at)
    (hsup : amount ≤ s.totalSupply)
    (hcap : batchSumN (getBal s.balances fr) ≤ U128MAX) :
    s'.totalSupply + amount = s.totalSupply ∧
    spendable_balance s' fr H + amount = spendable_balance s fr H ∧
    spendable_balance s' toA H = spendable_balance s toA H := by
  obtain ⟨s2, hfifo, hne, hamt, hbal, hsupEq, _, _, _, _, _, _⟩ :=
    burn_ok_destruct cfg s fr toA amount H s' ev hok
  obtain ⟨hls2, hamtle, hsup2, _, _, _⟩ := burn_fifo_ok_sum _ _ _ _ _ hfifo
  have hcl : getBal (cleanup s fr H).1.balances fr = getBal s.balances fr := by
    rw [cleanup_balances, getBal_setBal_same, cleanupLedger_of_live hlive]
  have hclsup : (cleanup s fr H).1.totalSupply = s.totalSupply := by
    rw [cleanup_supply, expiredAmount_of_live hlive]
    omega
  obtain ⟨hrem, hs2⟩ := burn_fifo_ok_destruct _ _ _ _ _ hfifo
  -- the consumed ledger and its sums
  have hsortsum : batchSumN (List.insertionSort
      (fun a b => a.expires_at ≤ b.expires_at)
      (getBal (cleanup s fr H).1.balances fr)) =
      batchSumN (getBal s.balances fr) := by
    rw [batchSumN_insertionSort, hcl]
  have hconsum := fifoConsume_sum H (List.insertionSort
    (fun a b => a.expires_at ≤ b.expires_at)
    (getBal (cleanup s fr H).1.balances fr)) amount
  rw [hrem] at hconsum
  have hfil := batchSumN_filter_pos (fifoConsume H (List.insertionSort
    (fun a b => a.expires_at ≤ b.expires_at)
    (getBal (cleanup s fr H).1.balances fr)) amount).1
  have hglive := burn_ok_live cfg s fr toA amount H s' ev hok
  have hgbal : getBal s'.balances fr =
      (fifoConsume H (List.insertionSort (fun a b => a.expires_at ≤ b.expires_at)
        (getBal (cleanup s fr H).1.balances fr)) amount).1.filter
          (fun b => decide (0 < b.amount)) := by
    rw [hbal, hs2]
    dsimp only
    rw [getBal_setBal_same]
  refine ⟨?_, ?_, ?_⟩
  · rw [hsupEq, hsup2, hclsup]
    omega
  · rw [spendable_eq, spendable_eq, filter_live_of_all hglive,
      filter_live_of_all hlive, hgbal]
    have hamtle2 : amount ≤ batchSumN (getBal s.balances fr) := by
      rw [← hcl]
      exact hamtle
    omega
  · have htoA : getBal s'.balances toA = getBal s.balances toA := by
      rw [hbal, hs2]
      dsimp only
      rw [getBal_setBal_ne _ _ _ _ (fun hc => hne hc.symm), cleanup_balances,
        getBal_setBal_ne _ _ _ _ (fun hc => hne hc.symm)]
    rw [spendable_eq, spendable_eq, htoA]

/-- C3 (witness): the amended conservation law on a concrete reachable state
with no expired batches: claim 100 at height 1, then burn 30 at height 1. -/
theorem C3_burn_conservation_witness :
    (dispatch mockConfig 1 ((dispatch mockConfig 1 genesis (.claim 7)).1)
        (.burn 7 8 30)).1.totalSupply + 30 =
      ((dispatch mockConfig 1 genesis (.claim 7)).1).totalSupply ∧
    spendable_balance (dispatch mockConfig 1
        ((dispatch mockConfig 1 genesis (.claim 7)).1) (.burn 7 8 30)).1 7 1 + 30 =
      spendable_balance ((dispatch mockConfig 1 genesis (.claim 7)).1) 7 1 ∧
    spendable_balance (dispatch mockConfig 1
        ((dispatch mockConfig 1 genesis (.claim 7)).1) (.burn 7 8 30)).1 8 1 =
      spendable_balance ((dispatch mockConfig 1 genesis (.claim 7)).1) 8 1 :=
  C3_burn_conservation mockConfig ((dispatch mockConfig 1 genesis (.claim 7)).1)
    7 8 30 1
    (dispatch mockConfig 1 ((dispatch mockConfig 1 genesis (.claim 7)).1)
      (.burn 7 8 30)).1
    (dispatch mockConfig 1 ((dispatch mockConfig 1 genesis (.claim 7)).1)
      (.burn 7 8 30)).2
    rfl (by decide) (by decide) (by decide)


/-! ## Claim C4 -/



theorem tryAddBatch_error {amt e : Nat} {led : List TokenBatch}
    {err : PalletError} (hx : tryAddBatch amt e led = .error err) :
    err = .TooManyBatches := by
  unfold tryAddBatch at hx
  simp only [] at hx
  split at hx
  · exact absurd hx (by simp)
  · split at hx
    · exact absurd hx (by simp)
    · injection hx with hx
      exact hx.symm

theorem filter_nil_of_any_false {α : Type} {l : List α} {p : α → Bool}
    (h : l.any p = false) : l.filter p = [] := by
  induction l with
  | nil => rfl
  | cons a t ih =>
    simp only [List.any_cons, Bool.or_eq_false_iff] at h
    rw [List.filter_cons_of_neg]
    · exact ih h.2
    · simp [h.1]

/-- C4 (counterexample): a reachable state (ten claims under `cfg4`) where an
eleventh claim has `periodsSince = 1 ≠ 0` yet fails with `TooManyBatches`
instead of minting, refuting "otherwise it mints exactly …". -/
theorem C4_counterexample :
    Reach cfg4 c4pre 901 ∧
    calculate_claimable_periods cfg4 c4pre 7 1001 = 1 ∧
    claim cfg4 c4pre 7 1001 = .error .TooManyBatches := by
  refine ⟨?_, rfl, rfl⟩
  have r1 := @Reach.step cfg4 genesis 1 (.claim 7) 1 (Reach.init 1 (by decide))
    le_rfl (by decide)
  have r2 := @Reach.step cfg4 _ _ (.claim 7) 101 r1 (by omega) (by decide)
  have r3 := @Reach.step cfg4 _ _ (.claim 7) 201 r2 (by omega) (by decide)
  have r4 := @Reach.step cfg4 _ _ (.claim 7) 301 r3 (by omega) (by decide)
  have r5 := @Reach.step cfg4 _ _ (.claim 7) 401 r4 (by omega) (by decide)
  have r6 := @Reach.step cfg4 _ _ (.claim 7) 501 r5 (by omega) (by decide)
  have r7 := @Reach.step cfg4 _ _ (.claim 7) 601 r6 (by omega) (by decide)
  have r8 := @Reach.step cfg4 _ _ (.claim 7) 701 r7 (by omega) (by decide)
  have r9 := @Reach.step cfg4 _ _ (.claim 7) 801 r8 (by omega) (by decide)
  exact @Reach.step cfg4 _ _ (.claim 7) 901 r9 (by omega) (by decide)

/-- C4 (amended): for every account and height, `periodsSince` is 1 without a
`LastClaim` entry and `floor((H - LastClaim) / ClaimPeriodBlocks)` otherwise
(saturating subtraction; assuming the quotient fits in `u32`, where the code
clamps); the claim fails with `NothingToClaim` iff `periodsSince = 0`; and
otherwise it *either* fails with `TooManyBatches` (ledger already at
`MAX_BATCHES` batches with no batch at the new expiry to merge into) *or*
mints exactly `UbiAmount * min(periodsSince, MaxBacklogPeriods)` into the
batch expiring at `H + ExpirationBlocks`, sets `LastClaim = H`, and raises
`TotalSupply` by the mint (arithmetic exact below the saturation bounds). -/
theorem C4_claim_minting (cfg : Config) (s : State) (who : AccountId) (H : Nat)
    (hcp : 0 < cfg.claimPeriodBlocks)
    (hclamp : ∀ l, s.lastClaim who = some l →
      (H - l) / cfg.claimPeriodBlocks ≤ U32MAX) :
    calculate_claimable_periods cfg s who H =
      (match s.lastClaim who with
       | none => 1
       | some l => (H - l) / cfg.claimPeriodBlocks) ∧
    (claim cfg s who H = .error .NothingToClaim ↔
      calculate_claimable_periods cfg s who H = 0) ∧
    (∀ s' ev, claim cfg s who H = .ok (s', ev) →
      ∀ mint, mint = cfg.ubiAmount *
          min (calculate_claimable_periods cfg s who H) cfg.maxBacklogPeriods →
        mint ≤ U128MAX →
        H + cfg.expirationBlocks ≤ U64MAX →
        (cleanup s who H).1.totalSupply + mint ≤ U128MAX →
        batchSumN (getBal (cleanup s who H).1.balances who) + mint ≤ U128MAX →
        (s'.lastClaim who = some H ∧
         s'.totalSupply = (cleanup s who H).1.totalSupply + mint ∧
         Event.Claimed who mint
           (min (calculate_claimable_periods cfg s who H) cfg.maxBacklogPeriods)
           (H + cfg.expirationBlocks) ∈ ev ∧
         batchSumN ((getBal s'.balances who).filter
             (fun b => decide (b.expires_at = H + cfg.expirationBlocks))) =
           batchSumN ((getBal (cleanup s who H).1.balances who).filter
             (fun b => decide (b.expires_at = H + cfg.expirationBlocks))) + mint)) := by
  refine ⟨?_, ?_, ?_⟩
  · unfold calculate_claimable_periods
    cases hl : s.lastClaim who with
    | none => rfl
    | some l => exact Nat.min_eq_left (hclamp l hl)
  · by_cases hc : calculate_claimable_periods cfg s who H = 0
    · constructor
      · intro _
        exact hc
      · intro _
        simp [claim, hc]
    · constructor
      · intro herr
        exfalso
        unfold claim at herr
        simp only [] at herr
        rw [if_neg hc] at herr
        cases htry : tryAddBatch
            (satMul128 cfg.ubiAmount
              (min (calculate_claimable_periods cfg s who H) cfg.maxBacklogPeriods))
            (satAdd64 H cfg.expirationBlocks)
            (getBal (cleanup s who H).1.balances who) with
        | ok newLed =>
          rw [htry] at herr
          exact absurd herr (by simp)
        | error e =>
          rw [htry] at herr
          have he := tryAddBatch_error htry
          simp only [Except.error.injEq] at herr
          rw [he] at herr
          exact absurd herr.symm (by simp)
      · intro hc2
        exact absurd hc2 hc
  · intro s' ev hok mint hmint hmcap hecap hscap hbcap
    obtain ⟨newLed, hadd, hcn, hbal, hlc, hsup, _, _, hev⟩ :=
      claim_ok_destruct cfg s who H s' ev hok
    have hmint2 : satMul128 cfg.ubiAmount
        (min (calculate_claimable_periods cfg s who H) cfg.maxBacklogPeriods) =
        mint := by
      rw [hmint]
      exact Nat.min_eq_left (hmint ▸ hmcap)
    have hexp2 : satAdd64 H cfg.expirationBlocks = H + cfg.expirationBlocks :=
      Nat.min_eq_left hecap
    refine ⟨?_, ?_, ?_, ?_⟩
    · rw [hlc]
      simp
    · rw [hsup, hmint2]
      exact Nat.min_eq_left hscap
    · rw [hev, hmint2, hexp2]
      simp
    · rw [hbal, getBal_setBal_same]
      rw [hmint2, hexp2] at hadd
      unfold tryAddBatch at hadd
      simp only [] at hadd
      split at hadd
      · rename_i hmem
        injection hadd with hadd
        rw [← hadd]
        exact mergeFirst_filter_sum _ _ _ hbcap hmem
      · split at hadd
        · rename_i hnomem hlen
          injection hadd with hadd
          rw [← hadd]
          have hnil : (getBal (cleanup s who H).1.balances who).filter
              (fun b => decide (b.expires_at = H + cfg.expirationBlocks)) = [] :=
            filter_nil_of_any_false (by simpa using hnomem)
          rw [List.filter_append, hnil]
          simp [batchSumN]
        · exact absurd hadd (by simp)

/-- C4 (witness): the amended statement instantiated for a first claim from
genesis at height 1 under the mock configuration. -/
theorem C4_claim_minting_witness :
    calculate_claimable_periods mockConfig genesis 7 1 =
      (match genesis.lastClaim 7 with
       | none => 1
       | some l => (1 - l) / mockConfig.claimPeriodBlocks) ∧
    (claim mockConfig genesis 7 1 = .error .NothingToClaim ↔
      calculate_claimable_periods mockConfig genesis 7 1 = 0) ∧
    (∀ s' ev, claim mockConfig genesis 7 1 = .ok (s', ev) →
      ∀ mint, mint = mockConfig.ubiAmount *
          min (calculate_claimable_periods mockConfig genesis 7 1)
            mockConfig.maxBacklogPeriods →
        mint ≤ U128MAX →
        1 + mockConfig.expirationBlocks ≤ U64MAX →
        (cleanup genesis 7 1).1.totalSupply + mint ≤ U128MAX →
        batchSumN (getBal (cleanup genesis 7 1).1.balances 7) + mint ≤ U128MAX →
        (s'.lastClaim 7 = some 1 ∧
         s'.totalSupply = (cleanup genesis 7 1).1.totalSupply + mint ∧
         Event.Claimed 7 mint
           (min (calculate_claimable_periods mockConfig genesis 7 1)
             mockConfig.maxBacklogPeriods)
           (1 + mockConfig.expirationBlocks) ∈ ev ∧
         batchSumN ((getBal s'.balances 7).filter
             (fun b => decide (b.expires_at = 1 + mockConfig.expirationBlocks))) =
           batchSumN ((getBal (cleanup genesis 7 1).1.balances 7).filter
             (fun b => decide (b.expires_at = 1 + mockConfig.expirationBlocks))) +
             mint)) :=
  C4_claim_minting mockConfig genesis 7 1 (by decide)
    (fun l hl => by simp [genesis] at hl)


/-! ## Claims C5, C6 and C10 -/

theorem claim_ok_reputation (cfg : Config) (s : State) (who : AccountId)
    (H : Nat) (s' : State) (ev : List Event)
    (hok : claim cfg s who H = .ok (s', ev)) :
    s'.reputation who =
      claimRepUpdate H (block_to_period cfg H) (s.reputation who) := by
  obtain ⟨_, _, _, _, _, _, hrep, _, _⟩ := claim_ok_destruct cfg s who H s' ev hok
  rw [hrep]
  simp

theorem claimRepUpdate_streak (cb cp : Nat) (rep : Reputation) :
    (claimRepUpdate cb cp rep).claim_streak =
      (if cp - rep.last_claim_period ≤ STREAK_GRACE_PERIODS + 1
       then satAdd32 rep.claim_streak 1 else 1) ∧
    (claimRepUpdate cb cp rep).last_claim_period = cp := by
  unfold claimRepUpdate update_streak
  by_cases hfa : rep.first_activity = 0 <;>
    by_cases hgap : cp - rep.last_claim_period ≤ STREAK_GRACE_PERIODS + 1 <;>
      simp [hfa, hgap]

/-- C5: on a successful claim at height `H`, with
`currentPeriod = H / ClaimPeriodBlocks` and
`gap = currentPeriod - last_claim_period` (saturating), the streak is
incremented by one when `gap ≤ STREAK_GRACE_PERIODS + 1 = 3` and reset to 1
when `gap ≥ 4`, and `last_claim_period` is set to `currentPeriod`
(stated below the `u32` streak saturation point, and with the height and
period length inside their `u64` ranges). -/
theorem C5_streak_grace (cfg : Config) (s : State) (who : AccountId) (H : Nat)
    (s' : State) (ev : List Event) (hok : claim cfg s who H = .ok (s', ev))
    (hstreak : (s.reputation who).claim_streak < U32MAX)
    (hH : H ≤ U64MAX) (hcpb : cfg.claimPeriodBlocks ≤ U64MAX) :
    (H / cfg.claimPeriodBlocks - (s.reputation who).last_claim_period ≤
        STREAK_GRACE_PERIODS + 1 →
      (s'.reputation who).claim_streak = (s.reputation who).claim_streak + 1) ∧
    (STREAK_GRACE_PERIODS + 1 <
        H / cfg.claimPeriodBlocks - (s.reputation who).last_claim_period →
      (s'.reputation who).claim_streak = 1) ∧
    (s'.reputation who).last_claim_period = H / cfg.claimPeriodBlocks := by
  have hrep := claim_ok_reputation cfg s who H s' ev hok
  have hbp : block_to_period cfg H = H / cfg.claimPeriodBlocks := by
    unfold block_to_period
    rw [if_pos hH, if_pos hcpb]
  obtain ⟨h1, h2⟩ := claimRepUpdate_streak H (block_to_period cfg H) (s.reputation who)
  rw [hbp] at h1 h2
  refine ⟨?_, ?_, ?_⟩
  · intro hgap
    rw [hrep, hbp, h1, if_pos hgap]
    exact Nat.min_eq_left hstreak
  · intro hgap
    rw [hrep, hbp, h1, if_neg (by omega)]
  · rw [hrep, hbp, h2]

/-- C5 (witness): a second claim one period after the first increments the
streak from 1 to 2. -/
theorem C5_streak_grace_witness :
    (101 / mockConfig.claimPeriodBlocks -
        (((dispatch mockConfig 1 genesis (.claim 7)).1).reputation 7).last_claim_period ≤
        STREAK_GRACE_PERIODS + 1 →
      ((dispatch mockConfig 101 ((dispatch mockConfig 1 genesis (.claim 7)).1)
          (.claim 7)).1.reputation 7).claim_streak =
        (((dispatch mockConfig 1 genesis (.claim 7)).1).reputation 7).claim_streak + 1) ∧
    (STREAK_GRACE_PERIODS + 1 <
        101 / mockConfig.claimPeriodBlocks -
          (((dispatch mockConfig 1 genesis (.claim 7)).1).reputation 7).last_claim_period →
      ((dispatch mockConfig 101 ((dispatch mockConfig 1 genesis (.claim 7)).1)
          (.claim 7)).1.reputation 7).claim_streak = 1) ∧
    ((dispatch mockConfig 101 ((dispatch mockConfig 1 genesis (.claim 7)).1)
        (.claim 7)).1.reputation 7).last_claim_period =
      101 / mockConfig.claimPeriodBlocks :=
  C5_streak_grace mockConfig ((dispatch mockConfig 1 genesis (.claim 7)).1) 7 101
    (dispatch mockConfig 101 ((dispatch mockConfig 1 genesis (.claim 7)).1)
      (.claim 7)).1
    (dispatch mockConfig 101 ((dispatch mockConfig 1 genesis (.claim 7)).1)
      (.claim 7)).2
    rfl (by decide) (by decide) (by decide)

theorem claimRepUpdate_eq_noDecay (cb cp : Nat) (rep : Reputation) :
    claimRepUpdate cb cp rep = claimRepUpdateNoDecay cb cp rep := by
  unfold claimRepUpdate claimRepUpdateNoDecay update_streak apply_decay
  by_cases hfa : rep.first_activity = 0 <;>
    by_cases hgap : cp - rep.last_claim_period ≤ STREAK_GRACE_PERIODS + 1 <;>
      simp [hfa, hgap, recalculate_score]

theorem claimRepUpdate_score (cb cp : Nat) (rep : Reputation) :
    (claimRepUpdate cb cp rep).score =
      recalculate_score (claimRepUpdate cb cp rep) := rfl

theorem burnRepFrom_score (cb amt : Nat) (isNew : Bool) (rep : Reputation) :
    (burnRepFrom cb amt isNew rep).score =
      recalculate_score (burnRepFrom cb amt isNew rep) := rfl

theorem burnRepTo_score (cb amt w : Nat) (rep : Reputation) :
    (burnRepTo cb amt w rep).score =
      recalculate_score (burnRepTo cb amt w rep) := rfl

/-- C6: the `score = apply_decay(score)` line in `claim` is inert — the claim
handler returns the same post-state and events as the variant with that line
removed (the decayed value is overwritten by `recalculate_score`, which does
not read `score`); and after a committed claim or burn, every updated
reputation record stores `score = Recompute(rep)` over its own components. -/
theorem C6_decay_inert (cfg : Config) (s : State) (a fr toA : AccountId)
    (amt H : Nat) :
    claim cfg s a H = claimNoDecay cfg s a H ∧
    (∀ r, claim cfg s a H = .ok r →
      (r.1.reputation a).score = recalculate_score (r.1.reputation a)) ∧
    (∀ r, burn cfg s fr toA amt H = .ok r →
      (r.1.reputation fr).score = recalculate_score (r.1.reputation fr) ∧
      (r.1.reputation toA).score = recalculate_score (r.1.reputation toA)) := by
  refine ⟨?_, ?_, ?_⟩
  · unfold claim claimNoDecay
    simp only [claimRepUpdate_eq_noDecay]
  · intro r hok
    have hrep := claim_ok_reputation cfg s a H r.1 r.2 (by rw [hok])
    rw [hrep, claimRepUpdate_score]
  · intro r hok
    obtain ⟨s2, _, _, _, _, _, _, _, hrepf, hrept, _, _⟩ :=
      burn_ok_destruct cfg s fr toA amt H r.1 r.2 (by rw [hok])
    constructor
    · rw [hrepf, burnRepFrom_score]
    · rw [hrept, burnRepTo_score]

/-- C6 (witness): the equivalence and the score identities on a concrete
claim and a concrete burn from genesis. -/
theorem C6_decay_inert_witness :
    claim mockConfig genesis 7 1 = claimNoDecay mockConfig genesis 7 1 ∧
    (∀ r, claim mockConfig genesis 7 1 = .ok r →
      (r.1.reputation 7).score = recalculate_score (r.1.reputation 7)) ∧
    (∀ r, burn mockConfig genesis 7 8 5 1 = .ok r →
      (r.1.reputation 7).score = recalculate_score (r.1.reputation 7) ∧
      (r.1.reputation 8).score = recalculate_score (r.1.reputation 8)) :=
  C6_decay_inert mockConfig genesis 7 7 8 5 1

/-- C10: an account that has never claimed (`claim_streak = 0` and
`last_claim_period = 0`) ends any successful claim with `claim_streak = 1`:
the increment branch yields `0 + 1` and the reset branch yields `1`. -/
theorem C10_first_claim_streak (cfg : Config) (s : State) (who : AccountId)
    (H : Nat) (s' : State) (ev : List Event)
    (hok : claim cfg s who H = .ok (s', ev))
    (hs : (s.reputation who).claim_streak = 0)
    (hl : (s.reputation who).last_claim_period = 0) :
    (s'.reputation who).claim_streak = 1 := by
  have hrep := claim_ok_reputation cfg s who H s' ev hok
  rw [hrep]
  rw [(claimRepUpdate_streak H (block_to_period cfg H) (s.reputation who)).1, hs]
  split
  · decide
  · rfl

/-- C10 (witness): the first claim from genesis sets the streak to 1. -/
theorem C10_first_claim_streak_witness :
    (((dispatch mockConfig 1 genesis (.claim 7)).1).reputation 7).claim_streak = 1 :=
  C10_first_claim_streak mockConfig genesis 7 1
    (dispatch mockConfig 1 genesis (.claim 7)).1
    (dispatch mockConfig 1 genesis (.claim 7)).2
    rfl (by decide) (by decide)


/-! ## Claim C8 -/

/-- C8: the admission predicate (the model `validate_unsigned` takes the
store and height and returns only a `ValidationResult`, so validation cannot
mutate state).  An unsigned `Claim(acct)` is rejected with code 1 exactly
when `periodsSince = 0`, else accepted with tag
`("UbiClaim", acct, H / ClaimPeriodBlocks)` and longevity 5; an unsigned
`Burn(from, to, amount)` is rejected with code 2 on self-burn, else code 3 on
zero amount, else code 4 when the live balance is short, else accepted with
tag `("UbiBurn", from, H)` and longevity 5. -/
theorem C8_validate_unsigned (cfg : Config) (s : State) (H : Nat)
    (a fr toA : AccountId) (amount : Nat) (hcp : 0 < cfg.claimPeriodBlocks) :
    (validate_unsigned cfg s H (.claim a) = .invalid 1 ↔
      calculate_claimable_periods cfg s a H = 0) ∧
    (calculate_claimable_periods cfg s a H ≠ 0 →
      validate_unsigned cfg s H (.claim a) =
        .valid ⟨"UbiClaim", a, H / cfg.claimPeriodBlocks, 5⟩) ∧
    (fr = toA → validate_unsigned cfg s H (.burn fr toA amount) = .invalid 2) ∧
    (fr ≠ toA → amount = 0 →
      validate_unsigned cfg s H (.burn fr toA amount) = .invalid 3) ∧
    (fr ≠ toA → amount ≠ 0 → spendable_balance s fr H < amount →
      validate_unsigned cfg s H (.burn fr toA amount) = .invalid 4) ∧
    (fr ≠ toA → amount ≠ 0 → amount ≤ spendable_balance s fr H →
      validate_unsigned cfg s H (.burn fr toA amount) =
        .valid ⟨"UbiBurn", fr, H, 5⟩) := by
  refine ⟨?_, ?_, ?_, ?_, ?_, ?_⟩
  · by_cases hc : calculate_claimable_periods cfg s a H = 0 <;>
      simp [validate_unsigned, hc]
  · intro hc
    simp [validate_unsigned, hc]
  · intro he
    simp [validate_unsigned, he]
  · intro hne hz
    simp [validate_unsigned, hne, hz]
  · intro hne hz hlt
    simp [validate_unsigned, hne, hz, hlt]
  · intro hne hz hge
    simp [validate_unsigned, hne, hz, Nat.not_lt.mpr hge]

/-- C8 (witness): the admission predicate evaluated on the state after one
claim, at height 101, for `Claim(7)` and `Burn(7, 8, 30)`. -/
theorem C8_validate_unsigned_witness :
    (validate_unsigned mockConfig ((dispatch mockConfig 1 genesis (.claim 7)).1)
        101 (.claim 7) = .invalid 1 ↔
      calculate_claimable_periods mockConfig
        ((dispatch mockConfig 1 genesis (.claim 7)).1) 7 101 = 0) ∧
    (calculate_claimable_periods mockConfig
        ((dispatch mockConfig 1 genesis (.claim 7)).1) 7 101 ≠ 0 →
      validate_unsigned mockConfig ((dispatch mockConfig 1 genesis (.claim 7)).1)
          101 (.claim 7) =
        .valid ⟨"UbiClaim", 7, 101 / mockConfig.claimPeriodBlocks, 5⟩) ∧
    ((7 : AccountId) = 8 →
      validate_unsigned mockConfig ((dispatch mockConfig 1 genesis (.claim 7)).1)
        101 (.burn 7 8 30) = .invalid 2) ∧
    ((7 : AccountId) ≠ 8 → (30 : Nat) = 0 →
      validate_unsigned mockConfig ((dispatch mockConfig 1 genesis (.claim 7)).1)
        101 (.burn 7 8 30) = .invalid 3) ∧
    ((7 : AccountId) ≠ 8 → (30 : Nat) ≠ 0 →
      spendable_balance ((dispatch mockConfig 1 genesis (.claim 7)).1) 7 101 < 30 →
      validate_unsigned mockConfig ((dispatch mockConfig 1 genesis (.claim 7)).1)
        101 (.burn 7 8 30) = .invalid 4) ∧
    ((7 : AccountId) ≠ 8 → (30 : Nat) ≠ 0 →
      30 ≤ spendable_balance ((dispatch mockConfig 1 genesis (.claim 7)).1) 7 101 →
      validate_unsigned mockConfig ((dispatch mockConfig 1 genesis (.claim 7)).1)
        101 (.burn 7 8 30) = .valid ⟨"UbiBurn", 7, 101, 5⟩) :=
  C8_validate_unsigned mockConfig ((dispatch mockConfig 1 genesis (.claim 7)).1)
    101 7 7 8 30 (by decide)


/-! ## Claim C9 -/


theorem sortedLed_iff (l : List TokenBatch) :
    sortedLed l ↔
      List.Pairwise (fun x y => x < y) (l.map (fun b => b.expires_at)) :=
  (List.pairwise_map).symm

theorem satAdd64_mono {h h2 E : Nat} (hle : h ≤ h2) :
    satAdd64 h E ≤ satAdd64 h2 E := by
  simp only [satAdd64]
  omega

theorem any_eq_false_mem {l : List TokenBatch} {e : Nat}
    (h : (l.any fun b => decide (b.expires_at = e)) = false) :
    ∀ b ∈ l, b.expires_at ≠ e := by
  rw [List.any_eq_false] at h
  intro b hb
  simpa using h b hb

theorem sortedLed_cleanup {l : List TokenBatch} {H : Nat} (hs : sortedLed l) :
    sortedLed (cleanupLedger l H) :=
  List.Pairwise.sublist (List.filter_sublist l) hs

theorem mem_cleanupLedger_mem {b : TokenBatch} {l : List TokenBatch} {H : Nat}
    (hb : b ∈ cleanupLedger l H) : b ∈ l :=
  List.mem_of_mem_filter hb

/-- The sorted-ledger invariant, with the auxiliary bound that every stored
expiry is at most `satAdd64 h ExpirationBlocks` at the current height `h`. -/
theorem reach_sorted_aux (cfg : Config) (s : State) (h : Nat)
    (hr : Reach cfg s h) :
    ∀ a, sortedLed (getBal s.balances a) ∧
      ∀ b ∈ getBal s.balances a,
        b.expires_at ≤ satAdd64 h cfg.expirationBlocks := by
  induction hr with
  | init h0 hh0 =>
    intro a
    simp [genesis, getBal, sortedLed]
  | step s h c h2 hr hle hle2 ih =>
    intro a
    cases c with
    | claim who =>
      cases hres : claim cfg s who h2 with
      | error e =>
        have hd : dispatch cfg h2 s (.claim who) = (s, []) := by
          simp [dispatch, handler, hres]
        rw [hd]
        exact ⟨(ih a).1, fun b hb =>
          ((ih a).2 b hb).trans (satAdd64_mono hle)⟩
      | ok r =>
        have hd : dispatch cfg h2 s (.claim who) = r := by
          simp [dispatch, handler, hres]
        rw [hd]
        obtain ⟨newLed, hadd, _, hbal, _, _, _, _, _⟩ :=
          claim_ok_destruct cfg s who h2 r.1 r.2 (by rw [hres])
        have hled : getBal (cleanup s who h2).1.balances who =
            cleanupLedger (getBal s.balances who) h2 := by
          rw [cleanup_balances, getBal_setBal_same]
        by_cases ha : a = who
        · subst ha
          rw [hbal, getBal_setBal_same]
          have hsrt : sortedLed (cleanupLedger (getBal s.balances a) h2) :=
            sortedLed_cleanup (ih a).1
          have hbound : ∀ b ∈ cleanupLedger (getBal s.balances a) h2,
              b.expires_at ≤ satAdd64 h2 cfg.expirationBlocks := fun b hb =>
            ((ih a).2 b (mem_cleanupLedger_mem hb)).trans (satAdd64_mono hle)
          unfold tryAddBatch at hadd
          simp only [] at hadd
          rw [hled] at hadd
          split at hadd
          · rename_i hmem
            injection hadd with hadd
            constructor
            · rw [← hadd, sortedLed_iff, mergeFirst_expires_map, ← sortedLed_iff]
              exact hsrt
            · intro b hb
              rw [← hadd] at hb
              obtain ⟨b2, hb2, heq⟩ :=
                expires_mem_of_map_eq (mergeFirst_expires_map _ _ _) hb
              rw [heq]
              exact hbound b2 hb2
          · split at hadd
            · rename_i hnomem hlen
              injection hadd with hadd
              constructor
              · rw [← hadd]
                unfold sortedLed
                rw [List.pairwise_append]
                refine ⟨hsrt, by simp, ?_⟩
                intro x hx y hy
                have hyeq : y = ⟨satMul128 cfg.ubiAmount
                    (min (calculate_claimable_periods cfg s a h2)
                      cfg.maxBacklogPeriods),
                    satAdd64 h2 cfg.expirationBlocks⟩ := by simpa using hy
                have hne := any_eq_false_mem (Bool.of_not_eq_true hnomem) x hx
                have hle3 := hbound x hx
                rw [hyeq]
                show x.expires_at < satAdd64 h2 cfg.expirationBlocks
                omega
              · intro b hb
                rw [← hadd] at hb
                rcases List.mem_append.mp hb with hb1 | hb1
                · exact hbound b hb1
                · have hbeq : b = ⟨satMul128 cfg.ubiAmount
                      (min (calculate_claimable_periods cfg s a h2)
                        cfg.maxBacklogPeriods),
                      satAdd64 h2 cfg.expirationBlocks⟩ := by simpa using hb1
                  rw [hbeq]
            · exact absurd hadd (by simp)
        · rw [hbal, getBal_setBal_ne _ _ _ _ ha, cleanup_balances,
            getBal_setBal_ne _ _ _ _ ha]
          exact ⟨(ih a).1, fun b hb =>
            ((ih a).2 b hb).trans (satAdd64_mono hle)⟩
    | burn fr toA amount =>
      cases hres : burn cfg s fr toA amount h2 with
      | error e =>
        have hd : dispatch cfg h2 s (.burn fr toA amount) = (s, []) := by
          simp [dispatch, handler, hres]
        rw [hd]
        exact ⟨(ih a).1, fun b hb =>
          ((ih a).2 b hb).trans (satAdd64_mono hle)⟩
      | ok r =>
        have hd : dispatch cfg h2 s (.burn fr toA amount) = r := by
          simp [dispatch, handler, hres]
        rw [hd]
        obtain ⟨s2, hfifo, _, _, hbal, _, _, _, _, _, _, _⟩ :=
          burn_ok_destruct cfg s fr toA amount h2 r.1 r.2 (by rw [hres])
        obtain ⟨hrem, hs2⟩ := burn_fifo_ok_destruct _ _ _ _ _ hfifo
        have hled : getBal (cleanup s fr h2).1.balances fr =
            cleanupLedger (getBal s.balances fr) h2 := by
          rw [cleanup_balances, getBal_setBal_same]
        by_cases ha : a = fr
        · subst ha
          rw [hbal, hs2]
          dsimp only
          rw [getBal_setBal_same]
          have hsrt : sortedLed (cleanupLedger (getBal s.balances a) h2) :=
            sortedLed_cleanup (ih a).1
          have hbound : ∀ b ∈ cleanupLedger (getBal s.balances a) h2,
              b.expires_at ≤ satAdd64 h2 cfg.expirationBlocks := fun b hb =>
            ((ih a).2 b (mem_cleanupLedger_mem hb)).trans (satAdd64_mono hle)
          have hsorteq : List.insertionSort
              (fun x y => x.expires_at ≤ y.expires_at)
              (getBal (cleanup s a h2).1.balances a) =
              cleanupLedger (getBal s.balances a) h2 := by
            rw [hled]
            exact List.Sorted.insertionSort_eq
              (hsrt.imp (fun hxy => Nat.le_of_lt hxy))
          constructor
          · have h1 : sortedLed (fifoConsume h2
                (List.insertionSort (fun x y => x.expires_at ≤ y.expires_at)
                  (getBal (cleanup s a h2).1.balances a)) amount).1 := by
              rw [sortedLed_iff, fifoConsume_expires_map, hsorteq, ← sortedLed_iff]
              exact hsrt
            exact List.Pairwise.sublist (List.filter_sublist _) h1
          · intro b hb
            have hb1 := List.mem_of_mem_filter hb
            obtain ⟨b2, hb2, heq⟩ :=
              expires_mem_of_map_eq (fifoConsume_expires_map _ _ _) hb1
            rw [hsorteq] at hb2
            rw [heq]
            exact hbound b2 hb2
        · rw [hbal, hs2]
          dsimp only
          rw [getBal_setBal_ne _ _ _ _ ha, cleanup_balances,
            getBal_setBal_ne _ _ _ _ ha]
          exact ⟨(ih a).1, fun b hb =>
            ((ih a).2 b hb).trans (satAdd64_mono hle)⟩

/-- C9: with heights non-decreasing across invocations, every reachable
store keeps each account's batch sequence strictly ascending in
`expires_at`: claims merge on equal expiry or append a strictly later one,
the expiration sweep only removes entries, and `burn_fifo` re-sorts,
consumes and keeps the order — so FIFO consumption is deterministic with no
tie-breaking needed. -/
theorem C9_sorted_ledger (cfg : Config) (s : State) (h : Nat)
    (hr : Reach cfg s h) (a : AccountId) :
    sortedLed (getBal s.balances a) :=
  (reach_sorted_aux cfg s h hr a).1

/-- C9 (witness): the two-batch ledger after claims at heights 1 and 101 is
strictly sorted by expiry. -/
theorem C9_sorted_ledger_witness :
    sortedLed (getBal ((dispatch mockConfig 101
      ((dispatch mockConfig 1 genesis (.claim 7)).1) (.claim 7)).1).balances 7) :=
  C9_sorted_ledger mockConfig _ 101
    (Reach.step ((dispatch mockConfig 1 genesis (.claim 7)).1) 1 (.claim 7) 101
      (Reach.step genesis 1 (.claim 7) 1 (Reach.init 1 (by decide)) le_rfl
        (by decide))
      (by omega) (by decide))
    7


/-! ## Claim C7 -/


theorem satAdd32_min_succ (c : Nat) :
    satAdd32 (min c U32MAX) 1 = min (c + 1) U32MAX := by
  simp only [satAdd32]
  omega

theorem claimRepUpdate_unique (cb cp : Nat) (rep : Reputation) :
    (claimRepUpdate cb cp rep).unique_recipients_count =
      rep.unique_recipients_count := by
  unfold claimRepUpdate update_streak
  by_cases hfa : rep.first_activity = 0 <;>
    by_cases hgap : cp - rep.last_claim_period ≤ STREAK_GRACE_PERIODS + 1 <;>
      simp [hfa, hgap]

theorem burnRepFrom_unique (cb amt : Nat) (isNew : Bool) (rep : Reputation) :
    (burnRepFrom cb amt isNew rep).unique_recipients_count =
      (if isNew then satAdd32 rep.unique_recipients_count 1
       else rep.unique_recipients_count) := by
  unfold burnRepFrom
  cases isNew <;> by_cases hfa : rep.first_activity = 0 <;> simp [hfa]

theorem burnRepTo_unique (cb amt w : Nat) (rep : Reputation) :
    (burnRepTo cb amt w rep).unique_recipients_count =
      rep.unique_recipients_count := by
  unfold burnRepTo
  by_cases hfa : rep.first_activity = 0 <;> simp [hfa]

/-- C7 (amended): the pallet never enforces `MAX_UNIQUE_RECIPIENTS` — the
constant is declared and never read.  What does hold in every reachable
state is exact cardinality tracking: `unique_recipients_count(a)` equals the
number of distinct recipients `a` has burned to, capped only by `u32`
saturation — so it can exceed 1000. -/
theorem C7_unique_recipients_card (cfg : Config) (s : State) (h : Nat)
    (hr : Reach cfg s h) (a : AccountId) :
    (s.reputation a).unique_recipients_count = min (urCard s a) U32MAX := by
  induction hr with
  | init h0 _ => simp [genesis, urCard, Reputation.default, U32MAX]
  | step s h c h2 hr hle hle2 ih =>
    cases c with
    | claim who =>
      cases hres : claim cfg s who h2 with
      | error e =>
        have hd : dispatch cfg h2 s (.claim who) = (s, []) := by
          simp [dispatch, handler, hres]
        rw [hd]
        exact ih
      | ok r =>
        have hd : dispatch cfg h2 s (.claim who) = r := by
          simp [dispatch, handler, hres]
        rw [hd]
        obtain ⟨_, _, _, _, _, _, hrep, hur, _⟩ :=
          claim_ok_destruct cfg s who h2 r.1 r.2 (by rw [hres])
        have hcard : urCard r.1 a = urCard s a := by
          unfold urCard
          rw [hur]
        rw [hcard, hrep]
        by_cases ha : a = who
        · subst ha
          rw [← ih]
          show (if a = a then claimRepUpdate h2 (block_to_period cfg h2)
              (s.reputation a) else s.reputation a).unique_recipients_count =
            (s.reputation a).unique_recipients_count
          rw [if_pos rfl, claimRepUpdate_unique]
        · rw [← ih]
          show (if a = who then claimRepUpdate h2 (block_to_period cfg h2)
              (s.reputation a) else s.reputation a).unique_recipients_count =
            (s.reputation a).unique_recipients_count
          rw [if_neg ha]
    | burn fr toA amount =>
      cases hres : burn cfg s fr toA amount h2 with
      | error e =>
        have hd : dispatch cfg h2 s (.burn fr toA amount) = (s, []) := by
          simp [dispatch, handler, hres]
        rw [hd]
        exact ih
      | ok r =>
        have hd : dispatch cfg h2 s (.burn fr toA amount) = r := by
          simp [dispatch, handler, hres]
        rw [hd]
        obtain ⟨s2, _, hne, _, _, _, _, hurEq, hrepf, hrept, hrepo, _⟩ :=
          burn_ok_destruct cfg s fr toA amount h2 r.1 r.2 (by rw [hres])
        by_cases haf : a = fr
        · subst haf
          rw [hrepf, burnRepFrom_unique]
          by_cases hg : getUR s.uniqueRecipients a toA = false
          · have hcard : urCard r.1 a = urCard s a + 1 := by
              unfold urCard
              rw [hurEq, if_pos hg, List.filter_cons_of_pos]
              · simp
              · simp
            rw [hcard, hg, ih, if_pos (by decide : (!false) = true)]
            exact satAdd32_min_succ (urCard s a)
          · have hg2 : getUR s.uniqueRecipients a toA = true := by
              revert hg
              cases getUR s.uniqueRecipients a toA <;> simp
            have hcard : urCard r.1 a = urCard s a := by
              unfold urCard
              rw [hurEq, if_neg (by simp [hg2])]
            rw [hcard, hg2, if_neg (by decide : ¬ ((!true) = true))]
            exact ih
        · have hcarda : urCard r.1 a = urCard s a := by
            unfold urCard
            rw [hurEq]
            by_cases hg : getUR s.uniqueRecipients fr toA = false
            · rw [if_pos hg, List.filter_cons_of_neg]
              simp
              exact fun hc => haf hc.symm
            · rw [if_neg hg]
          rw [hcarda]
          by_cases hat : a = toA
          · subst hat
            rw [hrept, burnRepTo_unique]
            exact ih
          · rw [hrepo a haf hat]
            exact ih

/-- C7 (amended, witness): after one claim and one burn from genesis, account
7's `unique_recipients_count` is `min(urCard, u32::MAX)`. -/
theorem C7_unique_recipients_card_witness :
    (((dispatch mockConfig 1 ((dispatch mockConfig 1 genesis (.claim 7)).1)
        (.burn 7 8 30)).1).reputation 7).unique_recipients_count =
      min (urCard ((dispatch mockConfig 1
        ((dispatch mockConfig 1 genesis (.claim 7)).1) (.burn 7 8 30)).1) 7)
        U32MAX :=
  C7_unique_recipients_card mockConfig _ 1
    (Reach.step ((dispatch mockConfig 1 genesis (.claim 7)).1) 1 (.burn 7 8 30) 1
      (Reach.step genesis 1 (.claim 7) 1 (Reach.init 1 (by decide)) le_rfl
        (by decide))
      le_rfl (by decide))
    7


/-! ## Claim C7: counterexample trace -/

theorem satAdd64_one {n : Nat} (h : n ≤ 2000) : satAdd64 n 1 = n + 1 := by
  unfold satAdd64 U64MAX
  omega

theorem satAdd128_one {n : Nat} (h : n ≤ 2000) : satAdd128 n 1 = n + 1 := by
  unfold satAdd128 U128MAX
  omega

theorem satAdd32_one {n : Nat} (h : n ≤ 2000) : satAdd32 n 1 = n + 1 := by
  unfold satAdd32 U32MAX
  omega

theorem satMul128_fifty {n : Nat} (h : n ≤ 2001) : satMul128 n 50 = n * 50 := by
  unfold satMul128 U128MAX
  have : n * 50 ≤ 2001 * 50 := Nat.mul_le_mul_right 50 h
  omega

theorem score_calc {n : Nat} (h : n ≤ 1000) :
    satAdd128 (satAdd128 (satAdd128 (satMul128 (n + 1) 50) (n + 1))
        (satMul128 0 2))
      (min (satMul128 1 10) 500) = 51 * (n + 1) + 10 := by
  rw [satMul128_fifty (by omega)]
  unfold satAdd128 satMul128 U128MAX
  omega

theorem burnRepFrom_step (n : Nat) (hn : n ≤ 1000) :
    burnRepFrom 1 1 true ⟨n, n, 0, 0, 1, 0, n, 1, 0, 51 * n + 10⟩ =
      ⟨n + 1, n + 1, 0, 0, 1, 0, n + 1, 1, 0, 51 * (n + 1) + 10⟩ := by
  have h64 := satAdd64_one (show n ≤ 2000 by omega)
  have h128 := satAdd128_one (show n ≤ 2000 by omega)
  have h32 := satAdd32_one (show n ≤ 2000 by omega)
  have hsc := score_calc hn
  unfold burnRepFrom recalculate_score calculate_streak_bonus
  simp only [h64, h128, h32]
  simp [hsc, POINTS_PER_UNIQUE_RECIPIENT, WEIGHTED_RECEIVED_MULTIPLIER,
    POINTS_PER_STREAK_DAY, MAX_STREAK_BONUS]



theorem sC7_spec : ∀ n, n ≤ 1001 →
    getBal (sC7 n).balances 0 = [⟨2000 - n, 1000001⟩] ∧
    (∀ j, n < j → getUR (sC7 n).uniqueRecipients 0 j = false) ∧
    (sC7 n).reputation 0 = ⟨n, n, 0, 0, 1, 0, n, 1, 0, 51 * n + 10⟩ := by
  intro n
  induction n with
  | zero =>
    intro _
    refine ⟨by decide, ?_, by decide⟩
    intro j hj
    have h : (sC7 0).uniqueRecipients = [] := rfl
    rw [h]
    rfl
  | succ n ih =>
    intro hn
    obtain ⟨ib, iu, ir⟩ := ih (by omega)
    have hled : getBal (cleanup (sC7 n) 0 1).1.balances 0 =
        [⟨2000 - n, 1000001⟩] := by
      rw [cleanup_balances, getBal_setBal_same, ib]
      simp [cleanupLedger]
    have hfifo : burn_fifo (cleanup (sC7 n) 0 1).1 0 1 1 =
        .ok { (cleanup (sC7 n) 0 1).1 with
          balances := (setBal (cleanup (sC7 n) 0 1).1.balances 0
            [⟨2000 - (n + 1), 1000001⟩]) } := by
      unfold burn_fifo
      simp only []
      rw [hled]
      have hsort : List.insertionSort (fun a b => a.expires_at ≤ b.expires_at)
          [(⟨2000 - n, 1000001⟩ : TokenBatch)] = [⟨2000 - n, 1000001⟩] := by
        simp [List.insertionSort]
      rw [hsort, fifoConsume_cons_take [] (by dsimp only; omega)
        (by dsimp only; omega)]
      dsimp only
      rw [if_pos rfl]
      have hfil : ([({ amount := 2000 - n - 1, expires_at := 1000001 } :
          TokenBatch)].filter (fun b => decide (0 < b.amount))) =
          [⟨2000 - (n + 1), 1000001⟩] := by
        rw [List.filter_cons_of_pos]
        · have h1 : 2000 - n - 1 = 2000 - (n + 1) := by omega
          rw [h1]
          rfl
        · simp
          omega
      rw [hfil]
    cases hres : burn cfg7 (sC7 n) 0 (n + 1) 1 1 with
    | error e =>
      exfalso
      unfold burn at hres
      simp only [] at hres
      rw [if_neg (by simp : ¬ (0 : AccountId) = n + 1),
        if_neg (by omega : ¬ (1 : Nat) = 0), hfifo] at hres
      simp at hres
    | ok r =>
      have hd : sC7 (n + 1) = r.1 := by
        show (dispatch cfg7 1 (sC7 n) (.burn 0 (n + 1) 1)).1 = r.1
        simp [dispatch, handler, hres]
      obtain ⟨s2, hfifo2, hne, hamt, hbal, hsup, hlc, hurEq, hrepf, hrept,
        hrepo, hev⟩ :=
        burn_ok_destruct cfg7 (sC7 n) 0 (n + 1) 1 1 r.1 r.2 (by rw [hres])
      have hs2 : s2 = { (cleanup (sC7 n) 0 1).1 with
          balances := (setBal (cleanup (sC7 n) 0 1).1.balances 0
            [⟨2000 - (n + 1), 1000001⟩]) } := by
        have h := hfifo2.symm.trans hfifo
        injection h
      have hgf : getUR (sC7 n).uniqueRecipients 0 (n + 1) = false :=
        iu (n + 1) (by omega)
      refine ⟨?_, ?_, ?_⟩
      · rw [hd, hbal, hs2]
        dsimp only
        rw [getBal_setBal_same]
      · intro j hj
        rw [hd, hurEq, if_pos hgf]
        show (((0 : AccountId), n + 1) :: (sC7 n).uniqueRecipients).any
          (fun p => decide (p.1 = 0 ∧ p.2 = j)) = false
        rw [List.any_cons]
        have h1 : decide ((((0 : AccountId), n + 1)).1 = 0 ∧
            (((0 : AccountId), n + 1)).2 = j) = false := by
          simp
          omega
        rw [h1, Bool.false_or]
        exact iu j (by omega)
      · rw [hd, hrepf, hgf, ir]
        have hb := burnRepFrom_step n (by omega)
        simpa using hb

theorem sC7_reach : ∀ n, Reach cfg7 (sC7 n) 1 := by
  intro n
  induction n with
  | zero =>
    exact @Reach.step cfg7 genesis 1 (.claim 0) 1 (Reach.init 1 (by decide))
      le_rfl (by decide)
  | succ n ih =>
    exact @Reach.step cfg7 (sC7 n) 1 (.burn 0 (n + 1) 1) 1 ih le_rfl (by decide)

/-- C7 (counterexample): the pallet never checks `MAX_UNIQUE_RECIPIENTS`: a
reachable state (one claim of 2000 tokens, then 1001 one-token burns to
distinct recipients) carries `unique_recipients_count = 1001 > 1000`. -/
theorem C7_counterexample :
    Reach cfg7 (sC7 1001) 1 ∧
    MAX_UNIQUE_RECIPIENTS < ((sC7 1001).reputation 0).unique_recipients_count := by
  refine ⟨sC7_reach 1001, ?_⟩
  rw [(sC7_spec 1001 le_rfl).2.2]
  decide

end UbiToken
